import Mathlib

/-!
# Verification of the crowded_cot metrics engine

A shallow embedding of crowded_cot/metrics.py (function
compute_positioning_metrics and its helpers _percentile_rank_inc,
_rolling_stats, _rolling_pct), together with theorems settling the
specification claims about the engine.

Modelling conventions:
* a float cell of a dataframe column is Option ℚ: some q is a finite
  value, none is NaN (pandas uses NaN for every missing value);
* pandas rolling std(ddof=1) is the square root of the sample variance;
  since the square root of a rational is irrational in general, the std
  column is carried as its square (the sample variance), and a z-score
  value is represented symbolically by the pair (numerator, variance):
  ZVal.val num v denotes the real number num / Real.sqrt v (with 0 < v).
  The boolean comparisons ZVal.geQ and ZVal.leQ decide the corresponding
  real inequalities exactly; lemmas zval_geQ_real and zval_leQ_real below
  certify this against Real.sqrt.
* raising an exception (the KeyError on a missing column) is modelled by
  the engine returning none.
-/

/-- One float cell: some q = finite value, none = NaN/missing. -/
abbrev Cell := Option ℚ

/-- Module constant MIN_REQUIRED_WEEKS = 156 (default minimum history). -/
def MIN_REQUIRED_WEEKS : ℕ := 156

/-- Module constant LOOKBACK_WEEKS_DEFAULT = 260. -/
def LOOKBACK_WEEKS_DEFAULT : ℕ := 260

/-- The trailing window arr[max(0, i-lookback+1) : i+1] used by _rolling_pct
and (positionally) by the pandas rolling aggregations. -/
def windowSlice (xs : List Cell) (lookback i : ℕ) : List Cell :=
  (xs.take (i+1)).drop (i+1-lookback)

/-- _percentile_rank_inc: inclusive percentile rank (0..100) of x against the
window, NaNs dropped from the window; NaN when the window holds no finite
value or x is NaN.  np.searchsorted(sorted, x, side="right") is the count of
window values ≤ x. -/
def percentileRankInc (w : List Cell) (x : Cell) : Cell :=
  let vals := w.filterMap id
  match x with
  | none => none
  | some xv =>
    if vals.length = 0 then none
    else some (100 * (((vals.filter (fun v => v ≤ xv)).length : ℚ) / (vals.length : ℚ)))

/-- _rolling_pct: inclusive percentile rank of each point against its trailing
window. -/
def rollingPct (xs : List Cell) (lookback : ℕ) : List Cell :=
  (List.range xs.length).map
    (fun i => percentileRankInc (windowSlice xs lookback i) (xs.getD i none))

/-- pandas Series.rolling(lookback, min_periods=minp).mean() at one window:
NaNs are skipped; NaN unless at least minp (and at least one) finite values
are present. -/
def meanAt (w : List Cell) (minp : ℕ) : Cell :=
  let vals := w.filterMap id
  if vals.length < minp ∨ vals.length = 0 then none
  else some (vals.sum / (vals.length : ℚ))

/-- pandas Series.rolling(lookback, min_periods=minp).std(ddof=1) at one
window, represented by its SQUARE (the sample variance with the n-1
denominator): NaN unless at least minp finite values are present, and NaN
when fewer than two finite values are present (zero degrees of freedom). -/
def stdSqAt (w : List Cell) (minp : ℕ) : Cell :=
  let vals := w.filterMap id
  if vals.length < minp ∨ vals.length < 2 then none
  else
    let m := vals.sum / (vals.length : ℚ)
    some ((vals.map (fun v => (v - m)^2)).sum / ((vals.length : ℚ) - 1))

/-- _rolling_stats: rolling mean and (squared) rolling std with
min_periods = min(lookback, min_required) — the clamp on line 27 of
metrics.py. -/
def rollingStats (xs : List Cell) (lookback minRequired : ℕ) :
    List Cell × List Cell :=
  let mp := min lookback minRequired
  ((List.range xs.length).map (fun i => meanAt (windowSlice xs lookback i) mp),
   (List.range xs.length).map (fun i => stdSqAt (windowSlice xs lookback i) mp))

/-- A z-score cell.  nan is NaN; inf b is +∞ (b = true) or -∞ (b = false),
produced by numpy when a nonzero numerator is divided by std = 0.0;
val num v denotes the real number num / Real.sqrt v, with 0 < v. -/
inductive ZVal where
  | nan : ZVal
  | inf : Bool → ZVal
  | val : ℚ → ℚ → ZVal
deriving DecidableEq, Repr, Inhabited

/-- Elementwise (ratio - mean) / std with numpy float semantics:
any NaN input gives NaN; division by std = 0.0 gives NaN when the numerator
is 0 (0/0) and ±∞ otherwise; a positive variance gives the symbolic value
(ratio - mean) / sqrt variance. -/
def mkZ (ratio mean stdSq : Cell) : ZVal :=
  match ratio, mean, stdSq with
  | some r, some m, some v =>
    if v = 0 then (if r = m then ZVal.nan else ZVal.inf (m < r))
    else ZVal.val (r - m) v
  | _, _, _ => ZVal.nan

/-- The elementwise z-score column (g["..._z"] = (ratio - mean) / std). -/
def zCol (r mean stdSq : List Cell) : List ZVal :=
  (List.range r.length).map
    (fun i => mkZ (r.getD i none) (mean.getD i none) (stdSq.getD i none))

/-- pandas elementwise (series >= t): False on NaN. -/
def cellGE (c : Cell) (t : ℚ) : Bool :=
  match c with
  | none => false
  | some v => decide (t ≤ v)

/-- pandas elementwise (series <= t): False on NaN. -/
def cellLE (c : Cell) (t : ℚ) : Bool :=
  match c with
  | none => false
  | some v => decide (v ≤ t)

/-- The comparison (z >= t) on a z-score cell: False on NaN, the sign of ±∞
on infinities, and for val num v (denoting num/√v, 0 < v) the exact decision
of the real inequality num/√v ≥ t by sign analysis and squaring. -/
def ZVal.geQ : ZVal → ℚ → Bool
  | ZVal.nan, _ => false
  | ZVal.inf pos, _ => pos
  | ZVal.val num v, t =>
    if 0 ≤ num then (if t ≤ 0 then true else decide (t^2 * v ≤ num^2))
    else (if t ≤ 0 then decide (num^2 ≤ t^2 * v) else false)

/-- The comparison (z <= t) on a z-score cell, dually to ZVal.geQ. -/
def ZVal.leQ : ZVal → ℚ → Bool
  | ZVal.nan, _ => false
  | ZVal.inf pos, _ => !pos
  | ZVal.val num v, t =>
    if num ≤ 0 then (if 0 ≤ t then true else decide (t^2 * v ≤ num^2))
    else (if 0 ≤ t then decide (num^2 ≤ t^2 * v) else false)

/-- 100 * (long - short) / oi where oi = open_interest.replace(0, nan):
NaN when any input is NaN or open interest is exactly zero. -/
def netPct (long short oi : Cell) : Cell :=
  match long, short, oi with
  | some l, some s, some o => if o = 0 then none else some (100 * ((l - s) / o))
  | _, _, _ => none

/-- ext & ext.shift(1, fill_value=False): the two-week confirmation of
metrics.py lines 146-147. -/
def confirm2 (l : List Bool) : List Bool :=
  List.zipWith (fun a b => a && b) l (false :: l)

/-- One input row (the columns consumed by compute_positioning_metrics). -/
structure Row where
  report_date : ℤ
  contract : String
  open_interest : Cell
  asset_mgr_long : Cell
  asset_mgr_short : Cell
  lev_fund_long : Cell
  lev_fund_short : Cell
  dealer_long : Cell
  dealer_short : Cell
  other_rept_long : Cell
  other_rept_short : Cell
  nonrept_long : Cell
  nonrept_short : Cell
deriving DecidableEq, Repr, Inhabited

/-- An input dataframe: its rows plus which of the three optional
secondary-category column pairs are present.  The five primary numeric
columns and report_date/contract are always present (docstring contract). -/
structure Table where
  rows : List Row
  hasDealerCols : Bool
  hasOtherReptCols : Bool
  hasNonreptCols : Bool
deriving DecidableEq, Repr

/-- Lexicographic comparator of sort_values(["contract", "report_date"]). -/
def rowLe (a b : Row) : Bool :=
  if a.contract = b.contract then decide (a.report_date ≤ b.report_date)
  else decide (a.contract < b.contract)

/-- work.sort_values(["contract", "report_date"]): a stable lexicographic
sort (pandas multi-column sort_values uses the stable numpy lexsort; any
stable sort by the same total lexicographic key produces the identical list,
and insertion sort is stable and structurally recursive). -/
def sortRows (rows : List Row) : List Row :=
  rows.insertionSort (fun a b => rowLe a b = true)

/-- The group keys of groupby("contract", sort=False): distinct contracts in
order of first appearance. -/
def uniqueKeys (l : List String) : List String :=
  l.foldl (fun acc c => if c ∈ acc then acc else acc ++ [c]) []

/-- One output row: the input columns plus every derived column. -/
structure OutRow where
  report_date : ℤ
  contract : String
  open_interest : Cell
  asset_mgr_long : Cell
  asset_mgr_short : Cell
  lev_fund_long : Cell
  lev_fund_short : Cell
  dealer_long : Cell
  dealer_short : Cell
  other_rept_long : Cell
  other_rept_short : Cell
  nonrept_long : Cell
  nonrept_short : Cell
  am_net_pct_oi : Cell
  lf_net_pct_oi : Cell
  di_net_pct_oi : Cell
  or_net_pct_oi : Cell
  nr_net_pct_oi : Cell
  asset_mgr_z : ZVal
  lev_fund_z : ZVal
  dealer_z : ZVal
  other_rep_z : ZVal
  nonrept_z : ZVal
  asset_mgr_pct : Cell
  lev_fund_pct : Cell
  dealer_pct : Cell
  other_rep_pct : Cell
  nonrept_pct : Cell
  is_extreme_am_long : Bool
  is_extreme_lev_short : Bool
  is_confirmed_extreme_am_long : Bool
  is_confirmed_extreme_lev_short : Bool
  extreme_crowding : Bool
deriving DecidableEq, Repr, Inhabited

/-- Column g["am_net_pct_oi"] restricted to one contract group (the ratio is
computed rowwise on the whole table at lines 83-85, before grouping, which is
the same thing). -/
def amRatioCol (g : List Row) : List Cell :=
  g.map (fun r => netPct r.asset_mgr_long r.asset_mgr_short r.open_interest)

/-- Column g["lf_net_pct_oi"] (lines 86-88). -/
def lfRatioCol (g : List Row) : List Cell :=
  g.map (fun r => netPct r.lev_fund_long r.lev_fund_short r.open_interest)

/-- Column g["di_net_pct_oi"] (line 90). -/
def diRatioCol (g : List Row) : List Cell :=
  g.map (fun r => netPct r.dealer_long r.dealer_short r.open_interest)

/-- Column g["or_net_pct_oi"] (line 91). -/
def orRatioCol (g : List Row) : List Cell :=
  g.map (fun r => netPct r.other_rept_long r.other_rept_short r.open_interest)

/-- Column g["nr_net_pct_oi"] (line 92). -/
def nrRatioCol (g : List Row) : List Cell :=
  g.map (fun r => netPct r.nonrept_long r.nonrept_short r.open_interest)

/-- The z-score column (ratio - mean) / std from _rolling_stats output. -/
def zColOf (xs : List Cell) (lookback minReq : ℕ) : List ZVal :=
  zCol xs (rollingStats xs lookback minReq).1 (rollingStats xs lookback minReq).2

/-- The dealer_z / other_rep_z / nonrept_z columns as first computed at lines
110-121 WITH the caller's min_required_weeks; these bindings are silently
overwritten by the second computation at lines 124-136 and never reach the
output. -/
def secondaryZFirstPass (xs : List Cell) (lookback minReq : ℕ) : List ZVal :=
  zColOf xs lookback minReq

/-- g["is_extreme_am_long"] (line 139): pct >= 90 OR z >= threshold, with the
percentile cut-off 90 a literal in the source. -/
def extAMCol (threshold : ℚ) (lookback minReq : ℕ) (g : List Row) : List Bool :=
  (List.range g.length).map (fun i =>
    cellGE ((rollingPct (amRatioCol g) lookback).getD i none) 90 ||
    ZVal.geQ ((zColOf (amRatioCol g) lookback minReq).getD i ZVal.nan) threshold)

/-- g["is_extreme_lev_short"] (line 140): pct <= 10 OR z <= -threshold, with
the percentile cut-off 10 a literal in the source. -/
def extLFCol (threshold : ℚ) (lookback minReq : ℕ) (g : List Row) : List Bool :=
  (List.range g.length).map (fun i =>
    cellLE ((rollingPct (lfRatioCol g) lookback).getD i none) 10 ||
    ZVal.leQ ((zColOf (lfRatioCol g) lookback minReq).getD i ZVal.nan) (-threshold))

/-- One output row of the per-contract loop body (metrics.py lines 96-152),
for the contract group g at position i.  The dealer / other-reportable /
non-reportable z and pct columns come from the SECOND computation (lines
124-136), which calls _rolling_stats without min_required_weeks and so uses
the module default MIN_REQUIRED_WEEKS; the first computation (lines 110-121,
secondaryZFirstPass) is overwritten. -/
def buildRow (threshold : ℚ) (lookback minReq : ℕ) (g : List Row) (i : ℕ) :
    OutRow :=
  let r := g.getD i default
  { report_date := r.report_date
    contract := r.contract
    open_interest := r.open_interest
    asset_mgr_long := r.asset_mgr_long
    asset_mgr_short := r.asset_mgr_short
    lev_fund_long := r.lev_fund_long
    lev_fund_short := r.lev_fund_short
    dealer_long := r.dealer_long
    dealer_short := r.dealer_short
    other_rept_long := r.other_rept_long
    other_rept_short := r.other_rept_short
    nonrept_long := r.nonrept_long
    nonrept_short := r.nonrept_short
    am_net_pct_oi := (amRatioCol g).getD i none
    lf_net_pct_oi := (lfRatioCol g).getD i none
    di_net_pct_oi := (diRatioCol g).getD i none
    or_net_pct_oi := (orRatioCol g).getD i none
    nr_net_pct_oi := (nrRatioCol g).getD i none
    asset_mgr_z := (zColOf (amRatioCol g) lookback minReq).getD i ZVal.nan
    lev_fund_z := (zColOf (lfRatioCol g) lookback minReq).getD i ZVal.nan
    dealer_z := (zColOf (diRatioCol g) lookback MIN_REQUIRED_WEEKS).getD i ZVal.nan
    other_rep_z := (zColOf (orRatioCol g) lookback MIN_REQUIRED_WEEKS).getD i ZVal.nan
    nonrept_z := (zColOf (nrRatioCol g) lookback MIN_REQUIRED_WEEKS).getD i ZVal.nan
    asset_mgr_pct := (rollingPct (amRatioCol g) lookback).getD i none
    lev_fund_pct := (rollingPct (lfRatioCol g) lookback).getD i none
    dealer_pct := (rollingPct (diRatioCol g) lookback).getD i none
    other_rep_pct := (rollingPct (orRatioCol g) lookback).getD i none
    nonrept_pct := (rollingPct (nrRatioCol g) lookback).getD i none
    is_extreme_am_long := (extAMCol threshold lookback minReq g).getD i false
    is_extreme_lev_short := (extLFCol threshold lookback minReq g).getD i false
    is_confirmed_extreme_am_long :=
      (confirm2 (extAMCol threshold lookback minReq g)).getD i false
    is_confirmed_extreme_lev_short :=
      (confirm2 (extLFCol threshold lookback minReq g)).getD i false
    extreme_crowding :=
      (extAMCol threshold lookback minReq g).getD i false ||
      (extLFCol threshold lookback minReq g).getD i false }

/-- The body of the per-contract loop of compute_positioning_metrics
(metrics.py lines 96-152) applied to one contract's rows g, already sorted
by report_date. -/
def processGroup (threshold : ℚ) (lookback minReq : ℕ) (g : List Row) :
    List OutRow :=
  (List.range g.length).map (buildRow threshold lookback minReq g)

/-- compute_positioning_metrics.  An empty input is returned unchanged (as an
empty output, no derived columns and no error).  A nonempty input missing any
of the dealer/other-reportable/non-reportable column pairs raises KeyError at
lines 90-92 (work["dealer_long"] etc. are accessed unconditionally), modelled
as none.  Otherwise the rows are sorted by (contract, report_date), grouped
by contract in order of appearance, and each group is processed by
processGroup; the final column reordering (lines 156-192) does not change row
contents and is not modelled. -/
def compute_positioning_metrics (df : Table) (threshold : ℚ)
    (lookback_weeks min_required_weeks : ℕ) : Option (List OutRow) :=
  if df.rows.isEmpty then some []
  else if df.hasDealerCols && df.hasOtherReptCols && df.hasNonreptCols then
    let sorted := sortRows df.rows
    let keys := uniqueKeys (sorted.map (fun r => r.contract))
    some (keys.flatMap (fun c =>
      processGroup threshold lookback_weeks min_required_weeks
        (sorted.filter (fun r => r.contract == c))))
  else none

/-! ## Supporting lemmas -/

theorem rangeMap_getElem {α : Type} (f : ℕ → α) (n i : ℕ) :
    ((List.range n).map f)[i]? = if i < n then some (f i) else none := by
  by_cases h : i < n
  · rw [List.getElem?_map, List.getElem?_range h]
    simp [h]
  · have hn : (List.range n).length ≤ i := by simpa using Nat.le_of_not_lt h
    rw [List.getElem?_map, List.getElem?_eq_none hn]
    simp [h]

theorem rangeMap_getD {α : Type} (f : ℕ → α) (n i : ℕ) (d : α) (h : i < n) :
    ((List.range n).map f).getD i d = f i := by
  rw [List.getD_eq_getElem?_getD, rangeMap_getElem]
  simp [h]

@[simp] theorem rollingPct_length (xs : List Cell) (lb : ℕ) :
    (rollingPct xs lb).length = xs.length := by
  simp [rollingPct]

@[simp] theorem rollingStats_fst_length (xs : List Cell) (lb mr : ℕ) :
    (rollingStats xs lb mr).1.length = xs.length := by
  simp [rollingStats]

@[simp] theorem rollingStats_snd_length (xs : List Cell) (lb mr : ℕ) :
    (rollingStats xs lb mr).2.length = xs.length := by
  simp [rollingStats]

@[simp] theorem zCol_length (r m s : List Cell) : (zCol r m s).length = r.length := by
  simp [zCol]

@[simp] theorem zColOf_length (xs : List Cell) (lb mr : ℕ) :
    (zColOf xs lb mr).length = xs.length := by
  simp [zColOf]

@[simp] theorem confirm2_length (l : List Bool) : (confirm2 l).length = l.length := by
  simp [confirm2]

@[simp] theorem extAMCol_length (thr : ℚ) (lb mr : ℕ) (g : List Row) :
    (extAMCol thr lb mr g).length = g.length := by
  simp [extAMCol]

@[simp] theorem extLFCol_length (thr : ℚ) (lb mr : ℕ) (g : List Row) :
    (extLFCol thr lb mr g).length = g.length := by
  simp [extLFCol]

@[simp] theorem processGroup_length (thr : ℚ) (lb mr : ℕ) (g : List Row) :
    (processGroup thr lb mr g).length = g.length := by
  simp [processGroup]

@[simp] theorem amRatioCol_length (g : List Row) : (amRatioCol g).length = g.length := by
  simp [amRatioCol]

@[simp] theorem lfRatioCol_length (g : List Row) : (lfRatioCol g).length = g.length := by
  simp [lfRatioCol]

@[simp] theorem diRatioCol_length (g : List Row) : (diRatioCol g).length = g.length := by
  simp [diRatioCol]

@[simp] theorem orRatioCol_length (g : List Row) : (orRatioCol g).length = g.length := by
  simp [orRatioCol]

@[simp] theorem nrRatioCol_length (g : List Row) : (nrRatioCol g).length = g.length := by
  simp [nrRatioCol]

theorem rollingPct_getD (xs : List Cell) (lb i : ℕ) (h : i < xs.length) :
    (rollingPct xs lb).getD i none =
      percentileRankInc (windowSlice xs lb i) (xs.getD i none) :=
  rangeMap_getD _ _ _ _ h

theorem rollingStats_fst_getD (xs : List Cell) (lb mr i : ℕ) (h : i < xs.length) :
    (rollingStats xs lb mr).1.getD i none =
      meanAt (windowSlice xs lb i) (min lb mr) :=
  rangeMap_getD _ _ _ _ h

theorem rollingStats_snd_getD (xs : List Cell) (lb mr i : ℕ) (h : i < xs.length) :
    (rollingStats xs lb mr).2.getD i none =
      stdSqAt (windowSlice xs lb i) (min lb mr) :=
  rangeMap_getD _ _ _ _ h

theorem zColOf_getD (xs : List Cell) (lb mr i : ℕ) (h : i < xs.length) :
    (zColOf xs lb mr).getD i ZVal.nan =
      mkZ (xs.getD i none) ((rollingStats xs lb mr).1.getD i none)
        ((rollingStats xs lb mr).2.getD i none) :=
  rangeMap_getD _ _ _ _ h

theorem confirm2_getD (l : List Bool) (i : ℕ) (h : i < l.length) :
    (confirm2 l).getD i false =
      (l.getD i false && (if i = 0 then false else l.getD (i-1) false)) := by
  rw [List.getD_eq_getElem?_getD, confirm2, List.getElem?_zipWith]
  rcases i with _ | j
  · have h0 : ∃ a, l[0]? = some a := by
      cases hx : l[0]? with
      | none => rw [List.getElem?_eq_none_iff] at hx; omega
      | some a => exact ⟨a, rfl⟩
    obtain ⟨a, ha⟩ := h0
    simp [ha, List.getD_eq_getElem?_getD]
  · have h1 : l[j+1]? = some (l.getD (j+1) false) := by
      rw [List.getD_eq_getElem?_getD]
      cases hx : l[j+1]? with
      | none => rw [List.getElem?_eq_none_iff] at hx; omega
      | some a => simp
    have h2 : (false :: l)[j+1]? = some (l.getD j false) := by
      simp only [List.getElem?_cons_succ]
      rw [List.getD_eq_getElem?_getD]
      cases hx : l[j]? with
      | none => rw [List.getElem?_eq_none_iff] at hx; omega
      | some a => simp
    rw [h1, h2]
    simp

/-- Certification of ZVal.geQ: for a z-score cell val num v denoting the real
number num / √v (with 0 < v), geQ decides the real inequality t ≤ num / √v
exactly. -/
theorem zval_geQ_real (num v t : ℚ) (hv : 0 < v) :
    ZVal.geQ (ZVal.val num v) t = true ↔
      (t : ℝ) ≤ (num : ℝ) / Real.sqrt (v : ℝ) := by
  have hv' : (0:ℝ) < (v:ℝ) := by exact_mod_cast hv
  have hs : (0:ℝ) < Real.sqrt (v:ℝ) := Real.sqrt_pos.mpr hv'
  have hsq : Real.sqrt (v:ℝ) ^ 2 = (v:ℝ) := Real.sq_sqrt hv'.le
  rw [le_div_iff₀ hs]
  show (if 0 ≤ num then (if t ≤ 0 then true else decide (t^2 * v ≤ num^2))
        else (if t ≤ 0 then decide (num^2 ≤ t^2 * v) else false)) = true ↔ _
  split_ifs with h1 h2 h2
  · have ht : (t:ℝ) ≤ 0 := by exact_mod_cast h2
    have hn : (0:ℝ) ≤ (num:ℝ) := by exact_mod_cast h1
    simp only [true_iff]
    nlinarith [mul_nonneg (neg_nonneg.mpr ht) hs.le]
  · have ht : (0:ℝ) < (t:ℝ) := by exact_mod_cast lt_of_not_le h2
    have hn : (0:ℝ) ≤ (num:ℝ) := by exact_mod_cast h1
    rw [decide_eq_true_iff]
    constructor
    · intro hle
      have hle' : (t:ℝ)^2 * (v:ℝ) ≤ (num:ℝ)^2 := by exact_mod_cast hle
      nlinarith [mul_pos ht hs]
    · intro hle
      have : (t:ℝ)^2 * (v:ℝ) ≤ (num:ℝ)^2 := by nlinarith [mul_pos ht hs]
      exact_mod_cast this
  · have ht : (t:ℝ) ≤ 0 := by exact_mod_cast h2
    have hn : (num:ℝ) < 0 := by exact_mod_cast lt_of_not_le h1
    rw [decide_eq_true_iff]
    constructor
    · intro hle
      have hle' : (num:ℝ)^2 ≤ (t:ℝ)^2 * (v:ℝ) := by exact_mod_cast hle
      nlinarith [mul_nonneg (neg_nonneg.mpr ht) hs.le]
    · intro hle
      have : (num:ℝ)^2 ≤ (t:ℝ)^2 * (v:ℝ) := by
        nlinarith [mul_nonneg (neg_nonneg.mpr ht) hs.le]
      exact_mod_cast this
  · have ht : (0:ℝ) < (t:ℝ) := by exact_mod_cast lt_of_not_le h2
    have hn : (num:ℝ) < 0 := by exact_mod_cast lt_of_not_le h1
    simp only [false_iff, not_le]
    nlinarith [mul_pos ht hs]

/-- ZVal.leQ is ZVal.geQ reflected through negation. -/
theorem zval_leQ_eq_geQ_neg (num v t : ℚ) :
    ZVal.leQ (ZVal.val num v) t = ZVal.geQ (ZVal.val (-num) v) (-t) := by
  show (if num ≤ 0 then (if 0 ≤ t then true else decide (t^2 * v ≤ num^2))
        else (if 0 ≤ t then decide (num^2 ≤ t^2 * v) else false)) =
       (if 0 ≤ -num then (if -t ≤ 0 then true else decide ((-t)^2 * v ≤ (-num)^2))
        else (if -t ≤ 0 then decide ((-num)^2 ≤ (-t)^2 * v) else false))
  simp [neg_nonneg, neg_nonpos, neg_sq]

/-- Certification of ZVal.leQ against Real.sqrt, dually to zval_geQ_real. -/
theorem zval_leQ_real (num v t : ℚ) (hv : 0 < v) :
    ZVal.leQ (ZVal.val num v) t = true ↔
      (num : ℝ) / Real.sqrt (v : ℝ) ≤ (t : ℝ) := by
  rw [zval_leQ_eq_geQ_neg, zval_geQ_real (-num) v (-t) hv]
  push_cast
  rw [neg_div]
  constructor
  · intro h; linarith
  · intro h; linarith

theorem getElem?_eq_getD {α : Type} (l : List α) (i : ℕ) (d : α) (h : i < l.length) :
    l[i]? = some (l.getD i d) := by
  rw [List.getD_eq_getElem?_getD]
  cases hx : l[i]? with
  | none => rw [List.getElem?_eq_none_iff] at hx; omega
  | some a => simp

theorem mapCol_getD {α β : Type} [Inhabited α] (f : α → β) (g : List α) (i : ℕ)
    (d : β) (h : i < g.length) : (g.map f).getD i d = f (g.getD i default) := by
  rw [List.getD_eq_getElem?_getD, List.getElem?_map, getElem?_eq_getD g i default h]
  simp

theorem getD_mem {α : Type} (l : List α) (i : ℕ) (d : α) (h : i < l.length) :
    l.getD i d ∈ l :=
  List.getElem?_mem (getElem?_eq_getD l i d h)

/-- The current value belongs to its own trailing window. -/
theorem getD_mem_windowSlice (xs : List Cell) (lb i : ℕ) (hlb : 1 ≤ lb)
    (hi : i < xs.length) : xs.getD i none ∈ windowSlice xs lb i := by
  have key : ((xs.take (i+1)).drop (i+1-lb))[i - (i+1-lb)]? = some (xs.getD i none) := by
    rw [List.getElem?_drop]
    have harith : (i+1-lb) + (i - (i+1-lb)) = i := by omega
    rw [harith, List.getElem?_take]
    simp only [Nat.lt_succ_self, if_true]
    exact getElem?_eq_getD xs i none hi
  exact List.getElem?_mem key

/-- The finite (non-NaN) values of the trailing window. -/
def finiteWindow (xs : List Cell) (lb i : ℕ) : List ℚ :=
  (windowSlice xs lb i).filterMap id

theorem mem_finiteWindow_of_getD (xs : List Cell) (lb i : ℕ) (x : ℚ)
    (hlb : 1 ≤ lb) (hi : i < xs.length) (hx : xs.getD i none = some x) :
    x ∈ finiteWindow xs lb i := by
  rw [finiteWindow, List.mem_filterMap]
  exact ⟨some x, by rw [← hx]; exact getD_mem_windowSlice xs lb i hlb hi, rfl⟩

theorem extAMCol_getD (thr : ℚ) (lb mr : ℕ) (g : List Row) (i : ℕ)
    (h : i < g.length) :
    (extAMCol thr lb mr g).getD i false =
      (cellGE ((rollingPct (amRatioCol g) lb).getD i none) 90 ||
       ZVal.geQ ((zColOf (amRatioCol g) lb mr).getD i ZVal.nan) thr) :=
  rangeMap_getD _ _ _ _ h

theorem extLFCol_getD (thr : ℚ) (lb mr : ℕ) (g : List Row) (i : ℕ)
    (h : i < g.length) :
    (extLFCol thr lb mr g).getD i false =
      (cellLE ((rollingPct (lfRatioCol g) lb).getD i none) 10 ||
       ZVal.leQ ((zColOf (lfRatioCol g) lb mr).getD i ZVal.nan) (-thr)) :=
  rangeMap_getD _ _ _ _ h

theorem mem_processGroup {thr : ℚ} {lb mr : ℕ} {g : List Row} {row : OutRow} :
    row ∈ processGroup thr lb mr g ↔
      ∃ i, i < g.length ∧ row = buildRow thr lb mr g i := by
  simp only [processGroup, List.mem_map, List.mem_range]
  constructor
  · rintro ⟨i, hi, rfl⟩; exact ⟨i, hi, rfl⟩
  · rintro ⟨i, hi, rfl⟩; exact ⟨i, hi, rfl⟩

theorem buildRow_contract (thr : ℚ) (lb mr : ℕ) (g : List Row) (i : ℕ) :
    (buildRow thr lb mr g i).contract = (g.getD i default).contract := rfl

theorem buildRow_open_interest (thr : ℚ) (lb mr : ℕ) (g : List Row) (i : ℕ) :
    (buildRow thr lb mr g i).open_interest = (g.getD i default).open_interest := rfl

theorem buildRow_am_net (thr : ℚ) (lb mr : ℕ) (g : List Row) (i : ℕ) :
    (buildRow thr lb mr g i).am_net_pct_oi = (amRatioCol g).getD i none := rfl

theorem buildRow_lf_net (thr : ℚ) (lb mr : ℕ) (g : List Row) (i : ℕ) :
    (buildRow thr lb mr g i).lf_net_pct_oi = (lfRatioCol g).getD i none := rfl

theorem buildRow_am_z (thr : ℚ) (lb mr : ℕ) (g : List Row) (i : ℕ) :
    (buildRow thr lb mr g i).asset_mgr_z =
      (zColOf (amRatioCol g) lb mr).getD i ZVal.nan := rfl

theorem buildRow_lf_z (thr : ℚ) (lb mr : ℕ) (g : List Row) (i : ℕ) :
    (buildRow thr lb mr g i).lev_fund_z =
      (zColOf (lfRatioCol g) lb mr).getD i ZVal.nan := rfl

theorem buildRow_am_pct (thr : ℚ) (lb mr : ℕ) (g : List Row) (i : ℕ) :
    (buildRow thr lb mr g i).asset_mgr_pct =
      (rollingPct (amRatioCol g) lb).getD i none := rfl

theorem buildRow_lf_pct (thr : ℚ) (lb mr : ℕ) (g : List Row) (i : ℕ) :
    (buildRow thr lb mr g i).lev_fund_pct =
      (rollingPct (lfRatioCol g) lb).getD i none := rfl

theorem buildRow_ext_am (thr : ℚ) (lb mr : ℕ) (g : List Row) (i : ℕ) :
    (buildRow thr lb mr g i).is_extreme_am_long =
      (extAMCol thr lb mr g).getD i false := rfl

theorem buildRow_ext_lf (thr : ℚ) (lb mr : ℕ) (g : List Row) (i : ℕ) :
    (buildRow thr lb mr g i).is_extreme_lev_short =
      (extLFCol thr lb mr g).getD i false := rfl

theorem buildRow_conf_am (thr : ℚ) (lb mr : ℕ) (g : List Row) (i : ℕ) :
    (buildRow thr lb mr g i).is_confirmed_extreme_am_long =
      (confirm2 (extAMCol thr lb mr g)).getD i false := rfl

theorem buildRow_conf_lf (thr : ℚ) (lb mr : ℕ) (g : List Row) (i : ℕ) :
    (buildRow thr lb mr g i).is_confirmed_extreme_lev_short =
      (confirm2 (extLFCol thr lb mr g)).getD i false := rfl

theorem buildRow_crowding (thr : ℚ) (lb mr : ℕ) (g : List Row) (i : ℕ) :
    (buildRow thr lb mr g i).extreme_crowding =
      ((extAMCol thr lb mr g).getD i false || (extLFCol thr lb mr g).getD i false) := rfl

/-! ## Definitions written from the specification's words

These are NOT translations of the source; they state what the spec says, for
the refinement claims that compare the spec's contract with the code. -/

/-- Modelled from the spec: the "crowded long" (asset managers) extreme
condition `percentile_rank >= am_long_pct_threshold OR z_score >= z_threshold`
with a configurable am_long_pct_threshold (the spec's default is 90). -/
def specExtremeAMLong (amThr zThr : ℚ) (pct : Cell) (z : ZVal) : Bool :=
  cellGE pct amThr || ZVal.geQ z zThr

/-- Modelled from the spec: the "crowded short" (leveraged funds) extreme
condition `percentile_rank <= lf_short_pct_threshold OR z_score <= -z_threshold`
with a configurable lf_short_pct_threshold (the spec's default is 10). -/
def specExtremeLFShort (lfThr zThr : ℚ) (pct : Cell) (z : ZVal) : Bool :=
  cellLE pct lfThr || ZVal.leQ z (-zThr)

/-- Modelled from the spec: a row is confirmed extreme iff the most recent
confirm_weeks consecutive rows ending at and including it are ALL flagged
extreme; false when fewer than confirm_weeks rows exist up to that point. -/
def specConfirmed (cw : ℕ) (ext : List Bool) : List Bool :=
  (List.range ext.length).map (fun i =>
    decide (cw ≤ i + 1) && ((ext.take (i+1)).drop (i+1-cw)).all id)

/-- Every row of a successful engine run is buildRow of some group at some
index. -/
theorem mem_compute {df : Table} {thr : ℚ} {lb mr : ℕ} {out : List OutRow}
    (h : compute_positioning_metrics df thr lb mr = some out)
    {row : OutRow} (hrow : row ∈ out) :
    ∃ g i, i < g.length ∧ row = buildRow thr lb mr g i := by
  unfold compute_positioning_metrics at h
  by_cases he : df.rows.isEmpty = true
  · rw [if_pos he] at h
    injection h with h2
    subst h2
    exact absurd hrow (List.not_mem_nil row)
  · rw [if_neg he] at h
    by_cases hc : (df.hasDealerCols && df.hasOtherReptCols && df.hasNonreptCols) = true
    · rw [if_pos hc] at h
      injection h with h2
      subst h2
      rw [List.mem_flatMap] at hrow
      obtain ⟨c, _, hpg⟩ := hrow
      obtain ⟨i, hi, hrw⟩ := mem_processGroup.mp hpg
      exact ⟨_, i, hi, hrw⟩
    · rw [if_neg hc] at h
      exact absurd h (by simp)

/-- The six dealer / other-reportable / non-reportable derived columns of an
output row. -/
def secondaryCols (r : OutRow) : ZVal × Cell × ZVal × Cell × ZVal × Cell :=
  (r.dealer_z, r.dealer_pct, r.other_rep_z, r.other_rep_pct,
   r.nonrept_z, r.nonrept_pct)

theorem processGroup_map_secondaryCols (thr : ℚ) (lb mr : ℕ) (g : List Row) :
    (processGroup thr lb mr g).map secondaryCols =
      (List.range g.length).map (fun i =>
        ((zColOf (diRatioCol g) lb MIN_REQUIRED_WEEKS).getD i ZVal.nan,
         (rollingPct (diRatioCol g) lb).getD i none,
         (zColOf (orRatioCol g) lb MIN_REQUIRED_WEEKS).getD i ZVal.nan,
         (rollingPct (orRatioCol g) lb).getD i none,
         (zColOf (nrRatioCol g) lb MIN_REQUIRED_WEEKS).getD i ZVal.nan,
         (rollingPct (nrRatioCol g) lb).getD i none)) := by
  simp only [processGroup, List.map_map]
  rfl

theorem map_flatMap_comm {α β γ : Type} (f : β → γ) (g : α → List β)
    (l : List α) : (l.flatMap g).map f = l.flatMap (fun a => (g a).map f) := by
  induction l with
  | nil => rfl
  | cons a l ih => simp [List.flatMap_cons, ih]

/-! ## Claim C1 -/

/-- A concrete nonempty input table in which the three secondary-category
column pairs are absent. -/
def tableC1 : Table :=
  { rows := [ { report_date := 1, contract := "ES", open_interest := some 10,
                asset_mgr_long := some 3, asset_mgr_short := some 1,
                lev_fund_long := some 2, lev_fund_short := some 4,
                dealer_long := none, dealer_short := none,
                other_rept_long := none, other_rept_short := none,
                nonrept_long := none, nonrept_short := none } ],
    hasDealerCols := false, hasOtherReptCols := false, hasNonreptCols := false }

/-- C1 counterexample: on a nonempty input table in which the three
secondary-category column pairs are absent, compute_positioning_metrics does
NOT succeed: work["dealer_long"] at line 90 raises KeyError (modelled as
none), refuting the claim that such inputs still return an output table with
those derived columns omitted. -/
theorem c1_counterexample :
    compute_positioning_metrics tableC1 2 260 156 = none := rfl

/-- C1 (amended): if any of the three secondary-category column pairs is
absent and the input table is nonempty, compute_positioning_metrics raises a
KeyError (returns none) instead of succeeding; the derived columns are only
"omitted" for the empty input, which is returned unchanged. -/
theorem c1_missing_secondary_raises (df : Table) (thr : ℚ) (lb mr : ℕ)
    (hne : df.rows ≠ [])
    (hmiss : df.hasDealerCols = false ∨ df.hasOtherReptCols = false ∨
             df.hasNonreptCols = false) :
    compute_positioning_metrics df thr lb mr = none := by
  unfold compute_positioning_metrics
  have he : df.rows.isEmpty = false := by
    simpa [List.isEmpty_iff] using hne
  rw [he]
  rcases hmiss with h | h | h <;> simp [h]

/-- Witness for c1_missing_secondary_raises at a concrete input. -/
theorem c1_missing_secondary_raises_witness :
    compute_positioning_metrics tableC1 (5/2) 10 3 = none :=
  c1_missing_secondary_raises tableC1 (5/2) 10 3 (by decide) (Or.inl rfl)

/-! ## Claim C2 -/

/-- C2: the dealer_z/dealer_pct, other_rep_z/other_rep_pct and
nonrept_z/nonrept_pct columns that reach the output come from the second
computation at lines 124-136, which omits min_required_weeks and therefore
uses the module default MIN_REQUIRED_WEEKS = 156; the first computation at
lines 110-121 (secondaryZFirstPass, with the caller's min_required_weeks) is
silently overwritten.  Consequently these six columns are the same for every
value of the min_required_weeks argument, and equal the run at the default:
the third conjunct exhibits them as zColOf/rollingPct at the constant
MIN_REQUIRED_WEEKS, with no occurrence of the argument. -/
theorem c2_secondary_min_required_ignored (df : Table) (thr : ℚ)
    (lb m1 m2 : ℕ) :
    (compute_positioning_metrics df thr lb m1).map (List.map secondaryCols) =
      (compute_positioning_metrics df thr lb m2).map (List.map secondaryCols) ∧
    MIN_REQUIRED_WEEKS = 156 ∧
    (∀ g : List Row, (processGroup thr lb m1 g).map secondaryCols =
      (List.range g.length).map (fun i =>
        ((zColOf (diRatioCol g) lb MIN_REQUIRED_WEEKS).getD i ZVal.nan,
         (rollingPct (diRatioCol g) lb).getD i none,
         (zColOf (orRatioCol g) lb MIN_REQUIRED_WEEKS).getD i ZVal.nan,
         (rollingPct (orRatioCol g) lb).getD i none,
         (zColOf (nrRatioCol g) lb MIN_REQUIRED_WEEKS).getD i ZVal.nan,
         (rollingPct (nrRatioCol g) lb).getD i none))) := by
  refine ⟨?_, rfl, processGroup_map_secondaryCols thr lb m1⟩
  unfold compute_positioning_metrics
  by_cases he : df.rows.isEmpty = true
  · rw [if_pos he, if_pos he]
  · rw [if_neg he, if_neg he]
    by_cases hc : (df.hasDealerCols && df.hasOtherReptCols && df.hasNonreptCols) = true
    · rw [if_pos hc, if_pos hc]
      simp only [Option.map_some']
      rw [map_flatMap_comm, map_flatMap_comm]
      simp only [processGroup_map_secondaryCols]
    · rw [if_neg hc, if_neg hc]

/-! ## Claim C3 -/

/-- A concrete one-contract table (asset-manager net ratios 60, 80, 40, so
with lookback 3 the third row has percentile rank 100/3 and a small z). -/
def tableC3 : Table :=
  { rows := [ { report_date := 1, contract := "ES", open_interest := some 10,
                asset_mgr_long := some 8, asset_mgr_short := some 2,
                lev_fund_long := some 2, lev_fund_short := some 8,
                dealer_long := some 1, dealer_short := some 1,
                other_rept_long := some 1, other_rept_short := some 1,
                nonrept_long := some 1, nonrept_short := some 1 },
              { report_date := 2, contract := "ES", open_interest := some 10,
                asset_mgr_long := some 9, asset_mgr_short := some 1,
                lev_fund_long := some 1, lev_fund_short := some 9,
                dealer_long := some 1, dealer_short := some 1,
                other_rept_long := some 1, other_rept_short := some 1,
                nonrept_long := some 1, nonrept_short := some 1 },
              { report_date := 3, contract := "ES", open_interest := some 10,
                asset_mgr_long := some 7, asset_mgr_short := some 3,
                lev_fund_long := some 3, lev_fund_short := some 7,
                dealer_long := some 1, dealer_short := some 1,
                other_rept_long := some 1, other_rept_short := some 1,
                nonrept_long := some 1, nonrept_short := some 1 } ],
    hasDealerCols := true, hasOtherReptCols := true, hasNonreptCols := true }

/-- C3 counterexample: the percentile cut-offs are NOT configuration
parameters of the engine.  The engine's signature is
compute_positioning_metrics(df, threshold, lookback_weeks,
min_required_weeks); there is no am_long_pct_threshold argument, and the
flag is computed against the literal 90 (line 139).  Concretely: at the
third row of tableC3 the rank is 100/3; under the claimed overridable
threshold am_long_pct_threshold = 30, the spec's extreme condition holds,
but the engine's flag is false — the engine is not governed by any such
parameter. -/
theorem c3_counterexample :
    (((compute_positioning_metrics tableC3 2 3 2).getD []).getD 2
        default).is_extreme_am_long = false ∧
    specExtremeAMLong 30 2
      ((((compute_positioning_metrics tableC3 2 3 2).getD []).getD 2
          default).asset_mgr_pct)
      ((((compute_positioning_metrics tableC3 2 3 2).getD []).getD 2
          default).asset_mgr_z) = true := by
  with_unfolding_all decide

/-- C3 (amended): the extreme conditions hold as the claim's formulas state
them, but with the percentile cut-offs fixed at the literals 90 and 10 (only
the z threshold is a parameter): for every output row,
is_extreme_am_long = (pct >= 90 OR z >= threshold) and
is_extreme_lev_short = (pct <= 10 OR z <= -threshold). -/
theorem c3_extreme_flags_fixed_cutoffs (df : Table) (thr : ℚ) (lb mr : ℕ)
    (out : List OutRow)
    (h : compute_positioning_metrics df thr lb mr = some out)
    (row : OutRow) (hrow : row ∈ out) :
    row.is_extreme_am_long =
      specExtremeAMLong 90 thr row.asset_mgr_pct row.asset_mgr_z ∧
    row.is_extreme_lev_short =
      specExtremeLFShort 10 thr row.lev_fund_pct row.lev_fund_z := by
  obtain ⟨g, i, hi, rfl⟩ := mem_compute h hrow
  rw [buildRow_ext_am, buildRow_ext_lf, buildRow_am_pct, buildRow_am_z,
    buildRow_lf_pct, buildRow_lf_z, extAMCol_getD thr lb mr g i hi,
    extLFCol_getD thr lb mr g i hi]
  exact ⟨rfl, rfl⟩

/-- Witness for c3_extreme_flags_fixed_cutoffs at a concrete run. -/
theorem c3_extreme_flags_fixed_cutoffs_witness :
    (((compute_positioning_metrics tableC3 2 3 2).getD []).getD 0
        default).is_extreme_am_long =
      specExtremeAMLong 90 2
        ((((compute_positioning_metrics tableC3 2 3 2).getD []).getD 0
            default).asset_mgr_pct)
        ((((compute_positioning_metrics tableC3 2 3 2).getD []).getD 0
            default).asset_mgr_z) := by
  have h : compute_positioning_metrics tableC3 2 3 2 =
      some ((compute_positioning_metrics tableC3 2 3 2).getD []) := by with_unfolding_all decide
  have hmem : (((compute_positioning_metrics tableC3 2 3 2).getD []).getD 0
      default) ∈ ((compute_positioning_metrics tableC3 2 3 2).getD []) := by
    with_unfolding_all decide
  exact (c3_extreme_flags_fixed_cutoffs tableC3 2 3 2 _ h _ hmem).1

theorem buildRow_am_long (thr : ℚ) (lb mr : ℕ) (g : List Row) (i : ℕ) :
    (buildRow thr lb mr g i).asset_mgr_long =
      (g.getD i default).asset_mgr_long := rfl

theorem buildRow_am_short (thr : ℚ) (lb mr : ℕ) (g : List Row) (i : ℕ) :
    (buildRow thr lb mr g i).asset_mgr_short =
      (g.getD i default).asset_mgr_short := rfl

theorem buildRow_lf_long (thr : ℚ) (lb mr : ℕ) (g : List Row) (i : ℕ) :
    (buildRow thr lb mr g i).lev_fund_long =
      (g.getD i default).lev_fund_long := rfl

theorem buildRow_lf_short (thr : ℚ) (lb mr : ℕ) (g : List Row) (i : ℕ) :
    (buildRow thr lb mr g i).lev_fund_short =
      (g.getD i default).lev_fund_short := rfl

theorem buildRow_dealer_long (thr : ℚ) (lb mr : ℕ) (g : List Row) (i : ℕ) :
    (buildRow thr lb mr g i).dealer_long =
      (g.getD i default).dealer_long := rfl

theorem buildRow_dealer_short (thr : ℚ) (lb mr : ℕ) (g : List Row) (i : ℕ) :
    (buildRow thr lb mr g i).dealer_short =
      (g.getD i default).dealer_short := rfl

theorem buildRow_or_long (thr : ℚ) (lb mr : ℕ) (g : List Row) (i : ℕ) :
    (buildRow thr lb mr g i).other_rept_long =
      (g.getD i default).other_rept_long := rfl

theorem buildRow_or_short (thr : ℚ) (lb mr : ℕ) (g : List Row) (i : ℕ) :
    (buildRow thr lb mr g i).other_rept_short =
      (g.getD i default).other_rept_short := rfl

theorem buildRow_nr_long (thr : ℚ) (lb mr : ℕ) (g : List Row) (i : ℕ) :
    (buildRow thr lb mr g i).nonrept_long =
      (g.getD i default).nonrept_long := rfl

theorem buildRow_nr_short (thr : ℚ) (lb mr : ℕ) (g : List Row) (i : ℕ) :
    (buildRow thr lb mr g i).nonrept_short =
      (g.getD i default).nonrept_short := rfl

theorem buildRow_di_net (thr : ℚ) (lb mr : ℕ) (g : List Row) (i : ℕ) :
    (buildRow thr lb mr g i).di_net_pct_oi = (diRatioCol g).getD i none := rfl

theorem buildRow_or_net (thr : ℚ) (lb mr : ℕ) (g : List Row) (i : ℕ) :
    (buildRow thr lb mr g i).or_net_pct_oi = (orRatioCol g).getD i none := rfl

theorem buildRow_nr_net (thr : ℚ) (lb mr : ℕ) (g : List Row) (i : ℕ) :
    (buildRow thr lb mr g i).nr_net_pct_oi = (nrRatioCol g).getD i none := rfl

theorem buildRow_di_z (thr : ℚ) (lb mr : ℕ) (g : List Row) (i : ℕ) :
    (buildRow thr lb mr g i).dealer_z =
      (zColOf (diRatioCol g) lb MIN_REQUIRED_WEEKS).getD i ZVal.nan := rfl

theorem buildRow_or_z (thr : ℚ) (lb mr : ℕ) (g : List Row) (i : ℕ) :
    (buildRow thr lb mr g i).other_rep_z =
      (zColOf (orRatioCol g) lb MIN_REQUIRED_WEEKS).getD i ZVal.nan := rfl

theorem buildRow_nr_z (thr : ℚ) (lb mr : ℕ) (g : List Row) (i : ℕ) :
    (buildRow thr lb mr g i).nonrept_z =
      (zColOf (nrRatioCol g) lb MIN_REQUIRED_WEEKS).getD i ZVal.nan := rfl

theorem buildRow_di_pct (thr : ℚ) (lb mr : ℕ) (g : List Row) (i : ℕ) :
    (buildRow thr lb mr g i).dealer_pct =
      (rollingPct (diRatioCol g) lb).getD i none := rfl

theorem buildRow_or_pct (thr : ℚ) (lb mr : ℕ) (g : List Row) (i : ℕ) :
    (buildRow thr lb mr g i).other_rep_pct =
      (rollingPct (orRatioCol g) lb).getD i none := rfl

theorem buildRow_nr_pct (thr : ℚ) (lb mr : ℕ) (g : List Row) (i : ℕ) :
    (buildRow thr lb mr g i).nonrept_pct =
      (rollingPct (nrRatioCol g) lb).getD i none := rfl

theorem mkZ_none_ratio (m s : Cell) : mkZ none m s = ZVal.nan := by
  cases m <;> cases s <;> rfl

theorem netPct_oi_zero (l s : Cell) : netPct l s (some 0) = none := by
  cases l <;> cases s <;> simp [netPct]

theorem netPct_oi_none (l s : Cell) : netPct l s none = none := by
  cases l <;> cases s <;> rfl

/-! ## Claim C10 -/

/-- C10: the five flag columns are total booleans (their type in this
embedding is Bool, never an optional value, matching the pandas bool dtype
produced by the comparisons and astype(bool)); where the percentile and the
z-score are both null the extreme flag is false (not null), confirmation
flags are false wherever the unconfirmed flag is false (hence also false on
null-statistics rows), and extreme_crowding is exactly the disjunction of
the two unconfirmed extreme flags. -/
theorem c10_flags_total (df : Table) (thr : ℚ) (lb mr : ℕ) (out : List OutRow)
    (h : compute_positioning_metrics df thr lb mr = some out)
    (row : OutRow) (hrow : row ∈ out) :
    (row.asset_mgr_pct = none → row.asset_mgr_z = ZVal.nan →
      row.is_extreme_am_long = false) ∧
    (row.lev_fund_pct = none → row.lev_fund_z = ZVal.nan →
      row.is_extreme_lev_short = false) ∧
    (row.is_extreme_am_long = false →
      row.is_confirmed_extreme_am_long = false) ∧
    (row.is_extreme_lev_short = false →
      row.is_confirmed_extreme_lev_short = false) ∧
    row.extreme_crowding = (row.is_extreme_am_long || row.is_extreme_lev_short) := by
  obtain ⟨g, i, hi, rfl⟩ := mem_compute h hrow
  refine ⟨?_, ?_, ?_, ?_, ?_⟩
  · rw [buildRow_am_pct, buildRow_am_z, buildRow_ext_am,
      extAMCol_getD thr lb mr g i hi]
    intro h1 h2
    rw [h1, h2]
    rfl
  · rw [buildRow_lf_pct, buildRow_lf_z, buildRow_ext_lf,
      extLFCol_getD thr lb mr g i hi]
    intro h1 h2
    rw [h1, h2]
    rfl
  · rw [buildRow_ext_am, buildRow_conf_am,
      confirm2_getD _ i (by simpa using hi)]
    intro h1
    rw [h1]
    simp
  · rw [buildRow_ext_lf, buildRow_conf_lf,
      confirm2_getD _ i (by simpa using hi)]
    intro h1
    rw [h1]
    simp
  · rw [buildRow_crowding, buildRow_ext_am, buildRow_ext_lf]

/-- Witness for c10_flags_total at a concrete run. -/
theorem c10_flags_total_witness :
    (((compute_positioning_metrics tableC3 2 3 2).getD []).getD 1
        default).extreme_crowding =
      ((((compute_positioning_metrics tableC3 2 3 2).getD []).getD 1
          default).is_extreme_am_long ||
       (((compute_positioning_metrics tableC3 2 3 2).getD []).getD 1
          default).is_extreme_lev_short) := by
  have h : compute_positioning_metrics tableC3 2 3 2 =
      some ((compute_positioning_metrics tableC3 2 3 2).getD []) := by
    with_unfolding_all decide
  have hmem : (((compute_positioning_metrics tableC3 2 3 2).getD []).getD 1
      default) ∈ ((compute_positioning_metrics tableC3 2 3 2).getD []) := by
    with_unfolding_all decide
  exact (c10_flags_total tableC3 2 3 2 _ h _ hmem).2.2.2.2

/-! ## Claim C8 -/

/-- C8: for each of the five trader categories (asset managers, leveraged
funds, dealers, other reportables, non-reportables) the net-position ratio is
100*(long-short)/open_interest; a zero or missing open interest yields a
null ratio for all five (the shared oi column is replace(0, nan)-ed before
every division — no exception, no sentinel), and all five percentile and
z-score columns of that row are then null as well. -/
theorem c8_net_ratio (df : Table) (thr : ℚ) (lb mr : ℕ) (out : List OutRow)
    (h : compute_positioning_metrics df thr lb mr = some out)
    (row : OutRow) (hrow : row ∈ out) :
    (row.open_interest = some 0 ∨ row.open_interest = none →
      row.am_net_pct_oi = none ∧ row.lf_net_pct_oi = none ∧
      row.di_net_pct_oi = none ∧ row.or_net_pct_oi = none ∧
      row.nr_net_pct_oi = none ∧
      row.asset_mgr_pct = none ∧ row.lev_fund_pct = none ∧
      row.dealer_pct = none ∧ row.other_rep_pct = none ∧
      row.nonrept_pct = none ∧
      row.asset_mgr_z = ZVal.nan ∧ row.lev_fund_z = ZVal.nan ∧
      row.dealer_z = ZVal.nan ∧ row.other_rep_z = ZVal.nan ∧
      row.nonrept_z = ZVal.nan) ∧
    (∀ o l s : ℚ, row.open_interest = some o → o ≠ 0 →
      row.asset_mgr_long = some l → row.asset_mgr_short = some s →
      row.am_net_pct_oi = some (100 * ((l - s) / o))) ∧
    (∀ o l s : ℚ, row.open_interest = some o → o ≠ 0 →
      row.lev_fund_long = some l → row.lev_fund_short = some s →
      row.lf_net_pct_oi = some (100 * ((l - s) / o))) ∧
    (∀ o l s : ℚ, row.open_interest = some o → o ≠ 0 →
      row.dealer_long = some l → row.dealer_short = some s →
      row.di_net_pct_oi = some (100 * ((l - s) / o))) ∧
    (∀ o l s : ℚ, row.open_interest = some o → o ≠ 0 →
      row.other_rept_long = some l → row.other_rept_short = some s →
      row.or_net_pct_oi = some (100 * ((l - s) / o))) ∧
    (∀ o l s : ℚ, row.open_interest = some o → o ≠ 0 →
      row.nonrept_long = some l → row.nonrept_short = some s →
      row.nr_net_pct_oi = some (100 * ((l - s) / o))) := by
  obtain ⟨g, i, hi, rfl⟩ := mem_compute h hrow
  have hilen : i < (amRatioCol g).length := by simpa using hi
  have hilen2 : i < (lfRatioCol g).length := by simpa using hi
  have hilen3 : i < (diRatioCol g).length := by simpa using hi
  have hilen4 : i < (orRatioCol g).length := by simpa using hi
  have hilen5 : i < (nrRatioCol g).length := by simpa using hi
  have ham : (buildRow thr lb mr g i).am_net_pct_oi =
      netPct (g.getD i default).asset_mgr_long
        (g.getD i default).asset_mgr_short
        (g.getD i default).open_interest := by
    rw [buildRow_am_net, amRatioCol, mapCol_getD _ _ _ _ hi]
  have hlf : (buildRow thr lb mr g i).lf_net_pct_oi =
      netPct (g.getD i default).lev_fund_long
        (g.getD i default).lev_fund_short
        (g.getD i default).open_interest := by
    rw [buildRow_lf_net, lfRatioCol, mapCol_getD _ _ _ _ hi]
  have hdi : (buildRow thr lb mr g i).di_net_pct_oi =
      netPct (g.getD i default).dealer_long
        (g.getD i default).dealer_short
        (g.getD i default).open_interest := by
    rw [buildRow_di_net, diRatioCol, mapCol_getD _ _ _ _ hi]
  have hor : (buildRow thr lb mr g i).or_net_pct_oi =
      netPct (g.getD i default).other_rept_long
        (g.getD i default).other_rept_short
        (g.getD i default).open_interest := by
    rw [buildRow_or_net, orRatioCol, mapCol_getD _ _ _ _ hi]
  have hnr : (buildRow thr lb mr g i).nr_net_pct_oi =
      netPct (g.getD i default).nonrept_long
        (g.getD i default).nonrept_short
        (g.getD i default).open_interest := by
    rw [buildRow_nr_net, nrRatioCol, mapCol_getD _ _ _ _ hi]
  refine ⟨?_, ?_, ?_, ?_, ?_, ?_⟩
  · intro hoi
    rw [buildRow_open_interest] at hoi
    have hnone : ∀ (l2 s2 : Cell),
        netPct l2 s2 (g.getD i default).open_interest = none := by
      intro l2 s2
      rcases hoi with h0 | h0 <;> rw [h0]
      · exact netPct_oi_zero _ _
      · exact netPct_oi_none _ _
    have hamn : (buildRow thr lb mr g i).am_net_pct_oi = none := by
      rw [ham]; exact hnone _ _
    have hlfn : (buildRow thr lb mr g i).lf_net_pct_oi = none := by
      rw [hlf]; exact hnone _ _
    have hdin : (buildRow thr lb mr g i).di_net_pct_oi = none := by
      rw [hdi]; exact hnone _ _
    have horn : (buildRow thr lb mr g i).or_net_pct_oi = none := by
      rw [hor]; exact hnone _ _
    have hnrn : (buildRow thr lb mr g i).nr_net_pct_oi = none := by
      rw [hnr]; exact hnone _ _
    have hra : (amRatioCol g).getD i none = none := by
      rw [← buildRow_am_net thr lb mr]; exact hamn
    have hrl : (lfRatioCol g).getD i none = none := by
      rw [← buildRow_lf_net thr lb mr]; exact hlfn
    have hrd : (diRatioCol g).getD i none = none := by
      rw [← buildRow_di_net thr lb mr]; exact hdin
    have hro : (orRatioCol g).getD i none = none := by
      rw [← buildRow_or_net thr lb mr]; exact horn
    have hrn : (nrRatioCol g).getD i none = none := by
      rw [← buildRow_nr_net thr lb mr]; exact hnrn
    refine ⟨hamn, hlfn, hdin, horn, hnrn, ?_, ?_, ?_, ?_, ?_, ?_, ?_, ?_, ?_, ?_⟩
    · rw [buildRow_am_pct, rollingPct_getD _ _ _ hilen, hra]
      rfl
    · rw [buildRow_lf_pct, rollingPct_getD _ _ _ hilen2, hrl]
      rfl
    · rw [buildRow_di_pct, rollingPct_getD _ _ _ hilen3, hrd]
      rfl
    · rw [buildRow_or_pct, rollingPct_getD _ _ _ hilen4, hro]
      rfl
    · rw [buildRow_nr_pct, rollingPct_getD _ _ _ hilen5, hrn]
      rfl
    · rw [buildRow_am_z, zColOf_getD _ _ _ _ hilen, hra, mkZ_none_ratio]
    · rw [buildRow_lf_z, zColOf_getD _ _ _ _ hilen2, hrl, mkZ_none_ratio]
    · rw [buildRow_di_z, zColOf_getD _ _ _ _ hilen3, hrd, mkZ_none_ratio]
    · rw [buildRow_or_z, zColOf_getD _ _ _ _ hilen4, hro, mkZ_none_ratio]
    · rw [buildRow_nr_z, zColOf_getD _ _ _ _ hilen5, hrn, mkZ_none_ratio]
  · intro o l s ho hne hl hs
    rw [buildRow_open_interest] at ho
    rw [buildRow_am_long] at hl
    rw [buildRow_am_short] at hs
    rw [ham, ho, hl, hs]
    simp [netPct, hne]
  · intro o l s ho hne hl hs
    rw [buildRow_open_interest] at ho
    rw [buildRow_lf_long] at hl
    rw [buildRow_lf_short] at hs
    rw [hlf, ho, hl, hs]
    simp [netPct, hne]
  · intro o l s ho hne hl hs
    rw [buildRow_open_interest] at ho
    rw [buildRow_dealer_long] at hl
    rw [buildRow_dealer_short] at hs
    rw [hdi, ho, hl, hs]
    simp [netPct, hne]
  · intro o l s ho hne hl hs
    rw [buildRow_open_interest] at ho
    rw [buildRow_or_long] at hl
    rw [buildRow_or_short] at hs
    rw [hor, ho, hl, hs]
    simp [netPct, hne]
  · intro o l s ho hne hl hs
    rw [buildRow_open_interest] at ho
    rw [buildRow_nr_long] at hl
    rw [buildRow_nr_short] at hs
    rw [hnr, ho, hl, hs]
    simp [netPct, hne]

/-- A concrete table whose second row has open_interest = 0. -/
def tableC8 : Table :=
  { rows := [ { report_date := 1, contract := "NQ", open_interest := some 10,
                asset_mgr_long := some 8, asset_mgr_short := some 2,
                lev_fund_long := some 2, lev_fund_short := some 8,
                dealer_long := some 1, dealer_short := some 1,
                other_rept_long := some 1, other_rept_short := some 1,
                nonrept_long := some 1, nonrept_short := some 1 },
              { report_date := 2, contract := "NQ", open_interest := some 0,
                asset_mgr_long := some 9, asset_mgr_short := some 1,
                lev_fund_long := some 1, lev_fund_short := some 9,
                dealer_long := some 1, dealer_short := some 1,
                other_rept_long := some 1, other_rept_short := some 1,
                nonrept_long := some 1, nonrept_short := some 1 } ],
    hasDealerCols := true, hasOtherReptCols := true, hasNonreptCols := true }

/-- Witness for c8_net_ratio: on the zero-open-interest row the asset-manager
and dealer ratios are null, on the regular row they are 100*(8-2)/10 and
100*(1-1)/10. -/
theorem c8_net_ratio_witness :
    (((compute_positioning_metrics tableC8 2 3 2).getD []).getD 1
        default).am_net_pct_oi = none ∧
    (((compute_positioning_metrics tableC8 2 3 2).getD []).getD 1
        default).di_net_pct_oi = none ∧
    (((compute_positioning_metrics tableC8 2 3 2).getD []).getD 0
        default).am_net_pct_oi = some (100 * ((8 - 2) / 10)) ∧
    (((compute_positioning_metrics tableC8 2 3 2).getD []).getD 0
        default).di_net_pct_oi = some (100 * ((1 - 1) / 10)) := by
  have h : compute_positioning_metrics tableC8 2 3 2 =
      some ((compute_positioning_metrics tableC8 2 3 2).getD []) := by
    with_unfolding_all decide
  have hm1 : (((compute_positioning_metrics tableC8 2 3 2).getD []).getD 1
      default) ∈ ((compute_positioning_metrics tableC8 2 3 2).getD []) := by
    with_unfolding_all decide
  have hm0 : (((compute_positioning_metrics tableC8 2 3 2).getD []).getD 0
      default) ∈ ((compute_positioning_metrics tableC8 2 3 2).getD []) := by
    with_unfolding_all decide
  refine ⟨?_, ?_, ?_, ?_⟩
  · exact ((c8_net_ratio tableC8 2 3 2 _ h _ hm1).1
      (Or.inl (by with_unfolding_all decide))).1
  · exact ((c8_net_ratio tableC8 2 3 2 _ h _ hm1).1
      (Or.inl (by with_unfolding_all decide))).2.2.1
  · exact (c8_net_ratio tableC8 2 3 2 _ h _ hm0).2.1 10 8 2
      (by with_unfolding_all decide) (by norm_num)
      (by with_unfolding_all decide) (by with_unfolding_all decide)
  · exact (c8_net_ratio tableC8 2 3 2 _ h _ hm0).2.2.2.1 10 1 1
      (by with_unfolding_all decide) (by norm_num)
      (by with_unfolding_all decide) (by with_unfolding_all decide)

/-! ## Claim C4 -/

theorem getD_eq_getElem {α : Type} (l : List α) (i : ℕ) (d : α)
    (h : i < l.length) : l.getD i d = l[i] := by
  have h1 := getElem?_eq_getD l i d h
  have h2 : l[i]? = some l[i] := List.getElem?_eq_getElem h
  rw [h1] at h2
  exact Option.some.inj h2

@[simp] theorem specConfirmed_length (cw : ℕ) (l : List Bool) :
    (specConfirmed cw l).length = l.length := by
  simp [specConfirmed]

theorem rangeMap_getD_self {α : Type} (L : List α) (d : α) (n : ℕ)
    (h : L.length = n) : (List.range n).map (fun i => L.getD i d) = L := by
  subst h
  apply List.ext_getElem?
  intro i
  rw [rangeMap_getElem]
  by_cases hi : i < L.length
  · rw [if_pos hi]
    exact (getElem?_eq_getD L i d hi).symm
  · rw [if_neg hi]
    exact (List.getElem?_eq_none (by omega)).symm

theorem take_drop_pair (l : List Bool) (i : ℕ) (h1 : 1 ≤ i)
    (h2 : i < l.length) :
    (l.take (i+1)).drop (i-1) = [l.getD (i-1) false, l.getD i false] := by
  rw [List.drop_take]
  have he : i + 1 - (i-1) = 2 := by omega
  rw [he]
  have hd1 : l.drop (i-1) = l.getD (i-1) false :: l.drop ((i-1)+1) := by
    rw [List.drop_eq_getElem_cons (by omega : i-1 < l.length)]
    rw [getD_eq_getElem l (i-1) false (by omega)]
  have hstep : (i-1)+1 = i := by omega
  rw [hd1, hstep]
  have hd2 : l.drop i = l.getD i false :: l.drop (i+1) := by
    rw [List.drop_eq_getElem_cons h2]
    rw [getD_eq_getElem l i false h2]
  rw [hd2]
  rfl

/-- The hard-coded two-consecutive-week confirmation of metrics.py lines
146-147 coincides with the spec's confirmation rule instantiated at
confirm_weeks = 2. -/
theorem confirm2_eq_specConfirmed_two (l : List Bool) :
    confirm2 l = specConfirmed 2 l := by
  apply List.ext_getElem?
  intro i
  by_cases h : i < l.length
  · rw [getElem?_eq_getD (confirm2 l) i false (by simpa using h),
      getElem?_eq_getD (specConfirmed 2 l) i false (by simpa using h),
      confirm2_getD l i h]
    have hs : (specConfirmed 2 l).getD i false =
        (decide (2 ≤ i + 1) && ((l.take (i+1)).drop (i+1-2)).all id) :=
      rangeMap_getD _ _ _ _ (by simpa using h)
    rw [hs]
    rcases Nat.eq_zero_or_pos i with h0 | h0
    · subst h0
      simp
    · have h1 : (1:ℕ) ≤ i := h0
      have he : i + 1 - 2 = i - 1 := by omega
      rw [he, take_drop_pair l i h1 h]
      have h2 : decide (2 ≤ i + 1) = true := by
        simp
        omega
      rw [h2]
      have hif : (if i = 0 then false else l.getD (i-1) false) =
          l.getD (i-1) false := by
        rw [if_neg (by omega)]
      rw [hif]
      cases hb1 : l.getD i false <;> cases hb2 : l.getD (i-1) false <;> rfl
  · rw [List.getElem?_eq_none (by simpa using Nat.le_of_not_lt h),
      List.getElem?_eq_none (by simp; omega)]

/-- A concrete one-row table whose single row is flagged extreme for asset
managers (the first value of any series has percentile rank 100 >= 90). -/
def tableC4 : Table :=
  { rows := [ { report_date := 1, contract := "GC", open_interest := some 10,
                asset_mgr_long := some 8, asset_mgr_short := some 2,
                lev_fund_long := some 2, lev_fund_short := some 8,
                dealer_long := some 1, dealer_short := some 1,
                other_rept_long := some 1, other_rept_short := some 1,
                nonrept_long := some 1, nonrept_short := some 1 } ],
    hasDealerCols := true, hasOtherReptCols := true, hasNonreptCols := true }

/-- C4 counterexample: confirm_weeks is NOT a configurable engine parameter;
the engine signature has no such argument and lines 146-147 hard-code a
two-week confirmation (ext & ext.shift(1)).  Concretely: the single row of
tableC4 is flagged extreme, so under the claimed configurable confirm_weeks
= 1 the spec's rule confirms it (specConfirmed 1 [true] = [true]), but the
engine's confirmation flag is false. -/
theorem c4_counterexample :
    (((compute_positioning_metrics tableC4 2 3 2).getD []).getD 0
        default).is_extreme_am_long = true ∧
    (((compute_positioning_metrics tableC4 2 3 2).getD []).getD 0
        default).is_confirmed_extreme_am_long = false ∧
    specConfirmed 1 [true] = [true] := by
  with_unfolding_all decide

/-- C4 (amended): the confirmation window is fixed at 2 weeks, not
configurable.  With that fix the claim's rule holds exactly: on every
contract partition, the confirmed column is the spec's confirmation rule
instantiated at confirm_weeks = 2 applied to the extreme column: a row is
confirmed iff it and the immediately preceding row of its partition are both
flagged extreme, and the first row of a partition (trailing window shorter
than 2) is never confirmed. -/
theorem c4_confirmation_fixed_two_weeks (thr : ℚ) (lb mr : ℕ) (g : List Row) :
    ((processGroup thr lb mr g).map (fun r => r.is_confirmed_extreme_am_long) =
      specConfirmed 2
        ((processGroup thr lb mr g).map (fun r => r.is_extreme_am_long))) ∧
    ((processGroup thr lb mr g).map (fun r => r.is_confirmed_extreme_lev_short) =
      specConfirmed 2
        ((processGroup thr lb mr g).map (fun r => r.is_extreme_lev_short))) ∧
    (∀ l : List Bool, confirm2 l = specConfirmed 2 l) := by
  have ham1 : (processGroup thr lb mr g).map
      (fun r => r.is_confirmed_extreme_am_long) =
      confirm2 (extAMCol thr lb mr g) := by
    simp only [processGroup, List.map_map]
    exact rangeMap_getD_self (confirm2 (extAMCol thr lb mr g)) false g.length
      (by simp)
  have ham2 : (processGroup thr lb mr g).map (fun r => r.is_extreme_am_long) =
      extAMCol thr lb mr g := by
    simp only [processGroup, List.map_map]
    exact rangeMap_getD_self (extAMCol thr lb mr g) false g.length (by simp)
  have hlf1 : (processGroup thr lb mr g).map
      (fun r => r.is_confirmed_extreme_lev_short) =
      confirm2 (extLFCol thr lb mr g) := by
    simp only [processGroup, List.map_map]
    exact rangeMap_getD_self (confirm2 (extLFCol thr lb mr g)) false g.length
      (by simp)
  have hlf2 : (processGroup thr lb mr g).map (fun r => r.is_extreme_lev_short) =
      extLFCol thr lb mr g := by
    simp only [processGroup, List.map_map]
    exact rangeMap_getD_self (extLFCol thr lb mr g) false g.length (by simp)
  refine ⟨?_, ?_, confirm2_eq_specConfirmed_two⟩
  · rw [ham1, ham2, confirm2_eq_specConfirmed_two]
  · rw [hlf1, hlf2, confirm2_eq_specConfirmed_two]

/-! ## Claim C5 -/

theorem windowSlice_zero (xs : List Cell) (i : ℕ) : windowSlice xs 0 i = [] := by
  unfold windowSlice
  apply List.drop_eq_nil_of_le
  simp

/-- C5: the rolling percentile rank at i is
100 * |{finite window values <= current}| / |finite window values|, is null
exactly when the current value is null or the finite window is empty, and no
minimum-history gate applies: any window holding the current value yields a
defined rank; a single-finite-value window ranks 100; the maximum of its own
window ranks 100; and the minimum of a window whose finite values are
strictly increasing (e.g. any trailing window of a strictly increasing
series) ranks 100 / window_size. -/
theorem c5_percentile_rank (xs : List Cell) (lb i : ℕ) (x : ℚ)
    (hi : i < xs.length) (hx : xs.getD i none = some x) :
    ((rollingPct xs lb).getD i none =
      (if (finiteWindow xs lb i).length = 0 then none
       else some (100 * ((((finiteWindow xs lb i).filter
           (fun v => v ≤ x)).length : ℚ) /
         ((finiteWindow xs lb i).length : ℚ))))) ∧
    (∀ j, xs.getD j none = none → (rollingPct xs lb).getD j none = none) ∧
    (1 ≤ lb → (finiteWindow xs lb i).length ≠ 0) ∧
    ((finiteWindow xs lb i).length = 1 →
      (rollingPct xs lb).getD i none = some 100) ∧
    (1 ≤ lb → (∀ v ∈ finiteWindow xs lb i, v ≤ x) →
      (rollingPct xs lb).getD i none = some 100) ∧
    (∀ (w : List Cell) (y : ℚ),
      (w.filterMap id).Pairwise (fun a b => a < b) →
      y ∈ w.filterMap id → (∀ v ∈ w.filterMap id, y ≤ v) →
      percentileRankInc w (some y) =
        some (100 / ((w.filterMap id).length : ℚ))) := by
  have hformula : (rollingPct xs lb).getD i none =
      (if (finiteWindow xs lb i).length = 0 then none
       else some (100 * ((((finiteWindow xs lb i).filter
           (fun v => v ≤ x)).length : ℚ) /
         ((finiteWindow xs lb i).length : ℚ)))) := by
    rw [rollingPct_getD xs lb i hi, hx]
    rfl
  have hrank_min : ∀ (w : List Cell) (y : ℚ),
      (w.filterMap id).Pairwise (fun a b => a < b) →
      y ∈ w.filterMap id → (∀ v ∈ w.filterMap id, y ≤ v) →
      percentileRankInc w (some y) =
        some (100 / ((w.filterMap id).length : ℚ)) := by
    intro w y hpair hmem hmin
    have hne : (w.filterMap id).length ≠ 0 := by
      intro h0
      rw [List.length_eq_zero] at h0
      rw [h0] at hmem
      exact List.not_mem_nil y hmem
    have hcount : ((w.filterMap id).filter (fun v => decide (v ≤ y))).length = 1 := by
      have hcongr : (w.filterMap id).filter (fun v => decide (v ≤ y)) =
          (w.filterMap id).filter (fun v => decide (v = y)) := by
        apply List.filter_congr
        intro v hv
        simp only [decide_eq_decide]
        constructor
        · intro hle
          exact le_antisymm hle (hmin v hv)
        · intro he
          rw [he]
      rw [hcongr]
      have hnd : (w.filterMap id).Nodup :=
        hpair.imp (fun hab => ne_of_lt hab)
      have hle1 : ((w.filterMap id).filter (fun v => decide (v = y))).length ≤ 1 := by
        have hcongr2 : (w.filterMap id).filter (fun v => decide (v = y)) =
            (w.filterMap id).filter (fun v => v == y) := by
          apply List.filter_congr
          intro v hv
          rfl
        rw [hcongr2, ← List.countP_eq_length_filter]
        exact List.nodup_iff_count_le_one.mp hnd y
      have hge1 : 0 < ((w.filterMap id).filter (fun v => decide (v = y))).length := by
        rw [List.length_pos]
        exact List.ne_nil_of_mem (List.mem_filter.mpr ⟨hmem, by simp⟩)
      omega
    show (if (List.filterMap id w).length = 0 then none
          else some (100 * (((List.filter (fun v => decide (v ≤ y))
              (List.filterMap id w)).length : ℚ) /
            ((List.filterMap id w).length : ℚ)))) =
        some (100 / ((List.filterMap id w).length : ℚ))
    rw [if_neg hne, hcount]
    norm_num
    ring
  refine ⟨hformula, ?_, ?_, ?_, ?_, hrank_min⟩
  · intro j hj
    by_cases hjl : j < xs.length
    · rw [rollingPct_getD xs lb j hjl, hj]
      rfl
    · rw [List.getD_eq_default _ _ (by simpa using Nat.le_of_not_lt hjl)]
  · intro hlb h0
    rw [List.length_eq_zero] at h0
    have := mem_finiteWindow_of_getD xs lb i x hlb hi hx
    rw [h0] at this
    exact List.not_mem_nil x this
  · intro hlen1
    have hlb : 1 ≤ lb := by
      by_contra hlb
      have hlb0 : lb = 0 := by omega
      rw [hlb0] at hlen1
      rw [finiteWindow, windowSlice_zero] at hlen1
      simp at hlen1
    have hmem := mem_finiteWindow_of_getD xs lb i x hlb hi hx
    have hcle : ((finiteWindow xs lb i).filter (fun v => v ≤ x)).length ≤ 1 := by
      rw [← hlen1]
      exact List.length_filter_le _ _
    have hcge : 0 < ((finiteWindow xs lb i).filter (fun v => v ≤ x)).length := by
      rw [List.length_pos]
      exact List.ne_nil_of_mem (List.mem_filter.mpr ⟨hmem, by simp⟩)
    rw [hformula, if_neg (by omega), hlen1]
    have hc1 : ((finiteWindow xs lb i).filter (fun v => v ≤ x)).length = 1 := by
      omega
    rw [hc1]
    norm_num
  · intro hlb hmax
    have hmem := mem_finiteWindow_of_getD xs lb i x hlb hi hx
    have hne : (finiteWindow xs lb i).length ≠ 0 := by
      intro h0
      rw [List.length_eq_zero] at h0
      rw [h0] at hmem
      exact List.not_mem_nil x hmem
    rw [hformula, if_neg hne]
    have hall : (finiteWindow xs lb i).filter (fun v => v ≤ x) =
        finiteWindow xs lb i := by
      rw [List.filter_eq_self]
      intro a ha
      simpa using hmax a ha
    rw [hall]
    have hq : ((finiteWindow xs lb i).length : ℚ) ≠ 0 := by
      exact_mod_cast hne
    field_simp

/-- Witness for c5_percentile_rank on the strictly increasing series
1, 2, 3 with window 3: the maximum ranks 100, the minimum ranks 100/3. -/
theorem c5_percentile_rank_witness :
    (rollingPct [some 1, some 2, some 3] 3).getD 2 none = some 100 ∧
    percentileRankInc [some 1, some 2, some 3] (some 1) = some (100 / 3) := by
  have h := c5_percentile_rank [some 1, some 2, some 3] 3 2 3 (by decide)
    (by with_unfolding_all decide)
  constructor
  · exact h.2.2.2.2.1 (by decide) (by with_unfolding_all decide)
  · exact h.2.2.2.2.2 [some 1, some 2, some 3] 1
      (by with_unfolding_all decide) (by with_unfolding_all decide)
      (by with_unfolding_all decide)

/-! ## Claim C6 -/

theorem windowSlice_length (xs : List Cell) (lb i : ℕ) (hi : i < xs.length) :
    (windowSlice xs lb i).length = min (i+1) lb := by
  simp only [windowSlice, List.length_drop, List.length_take]
  omega

/-- C6: rolling mean and std use the trailing window of up to window_length
values ending at i (windowSlice_length: exactly min(i+1, lookback) values,
fewer at the series start); the effective minimum history is clamped to
min(lookback, min_required) and the result is null unless at least that many
finite values are in the window; the std (carried as its square, the sample
variance) uses the n-1 denominator. -/
theorem c6_rolling_mean_std (xs : List Cell) (lb mr i : ℕ)
    (hi : i < xs.length) :
    rollingStats xs lb mr = rollingStats xs lb (min lb mr) ∧
    (windowSlice xs lb i).length = min (i+1) lb ∧
    ((rollingStats xs lb mr).1.getD i none =
      (if (finiteWindow xs lb i).length < min lb mr ∨
          (finiteWindow xs lb i).length = 0
       then none
       else some ((finiteWindow xs lb i).sum /
         ((finiteWindow xs lb i).length : ℚ)))) ∧
    ((rollingStats xs lb mr).2.getD i none =
      (if (finiteWindow xs lb i).length < min lb mr ∨
          (finiteWindow xs lb i).length < 2
       then none
       else some (((finiteWindow xs lb i).map
           (fun v => (v - (finiteWindow xs lb i).sum /
             ((finiteWindow xs lb i).length : ℚ))^2)).sum /
         (((finiteWindow xs lb i).length : ℚ) - 1)))) := by
  refine ⟨?_, windowSlice_length xs lb i hi, ?_, ?_⟩
  · unfold rollingStats
    have hclamp : min lb (min lb mr) = min lb mr := by omega
    rw [hclamp]
  · rw [rollingStats_fst_getD xs lb mr i hi]
    rfl
  · rw [rollingStats_snd_getD xs lb mr i hi]
    rfl

/-- Witness for c6_rolling_mean_std: series 1, 3, NaN with lookback 3 and
min_required 2 yields mean 2 and sample variance 2 at position 1. -/
theorem c6_rolling_mean_std_witness :
    (rollingStats [some 1, some 3, none] 3 2).1.getD 1 none = some 2 ∧
    (rollingStats [some 1, some 3, none] 3 2).2.getD 1 none = some 2 := by
  have h := c6_rolling_mean_std [some 1, some 3, none] 3 2 1 (by decide)
  constructor
  · rw [h.2.2.1]
    with_unfolding_all decide
  · rw [h.2.2.2]
    with_unfolding_all decide

/-! ## Claim C7 -/

theorem mkZ_none_std (r m : Cell) : mkZ r m none = ZVal.nan := by
  cases r <;> cases m <;> rfl

theorem mkZ_none_mean (r s : Cell) : mkZ r none s = ZVal.nan := by
  cases r <;> cases s <;> rfl

theorem sum_sq_eq_zero {m : ℚ} :
    ∀ (l : List ℚ), (l.map (fun v => (v - m)^2)).sum = 0 → ∀ x ∈ l, x = m := by
  intro l
  induction l with
  | nil =>
    intro _ x hx
    exact absurd hx (List.not_mem_nil x)
  | cons a t ih =>
    intro h x hx
    rw [List.map_cons, List.sum_cons] at h
    have hrest : 0 ≤ (t.map (fun v => (v - m)^2)).sum := by
      apply List.sum_nonneg
      intro y hy
      obtain ⟨z, _, rfl⟩ := List.mem_map.mp hy
      positivity
    have ha0 : (a - m)^2 = 0 := by nlinarith [sq_nonneg (a - m)]
    have ht0 : (t.map (fun v => (v - m)^2)).sum = 0 := by
      nlinarith [sq_nonneg (a - m)]
    rcases List.mem_cons.mp hx with rfl | hxt
    · have : x - m = 0 := (pow_eq_zero_iff (by norm_num : (2:ℕ) ≠ 0)).mp ha0
      linarith
    · exact ih ht0 x hxt

theorem sum_const_list {c : ℚ} :
    ∀ (l : List ℚ), (∀ x ∈ l, x = c) → l.sum = l.length * c := by
  intro l
  induction l with
  | nil =>
    intro _
    simp
  | cons a t ih =>
    intro h
    have ha : a = c := h a (List.mem_cons_self a t)
    have ht := fun x hx => h x (List.mem_cons_of_mem a hx)
    rw [List.sum_cons, ih ht, ha, List.length_cons]
    push_cast
    ring

/-- If the rolling sample variance at a position is exactly zero, every
finite value of the window — in particular the current value, which always
lies in its own window — equals the window mean, so the z-score numerator is
zero and the 0.0-division produces NaN, never ±∞. -/
theorem zColOf_stdZero_nan (xs : List Cell) (lb mr i : ℕ) (hi : i < xs.length)
    (hstd : (rollingStats xs lb mr).2.getD i none = some 0) :
    (zColOf xs lb mr).getD i ZVal.nan = ZVal.nan := by
  rw [rollingStats_snd_getD xs lb mr i hi] at hstd
  simp only [stdSqAt] at hstd
  split_ifs at hstd with hc
  push_neg at hc
  obtain ⟨hmp, h2⟩ := hc
  have hsum0 : (((windowSlice xs lb i).filterMap id).map
      (fun v => (v - ((windowSlice xs lb i).filterMap id).sum /
        (((windowSlice xs lb i).filterMap id).length : ℚ))^2)).sum = 0 := by
    have hval := Option.some.inj hstd
    have hden : ((((windowSlice xs lb i).filterMap id).length : ℚ) - 1) ≠ 0 := by
      have : (2:ℚ) ≤ (((windowSlice xs lb i).filterMap id).length : ℚ) := by
        exact_mod_cast h2
      linarith
    rcases div_eq_zero_iff.mp hval with h | h
    · exact h
    · exact absurd h hden
  have hall := sum_sq_eq_zero _ hsum0
  cases hr : xs.getD i none with
  | none =>
    rw [zColOf_getD xs lb mr i hi, hr, mkZ_none_ratio]
  | some r =>
    have hlb : 1 ≤ lb := by
      have hw := List.length_filterMap_le (id : Cell → Option ℚ) (windowSlice xs lb i)
      have hwl := windowSlice_length xs lb i hi
      omega
    have hrmem : r ∈ finiteWindow xs lb i :=
      mem_finiteWindow_of_getD xs lb i r hlb hi hr
    have hrm : r = ((windowSlice xs lb i).filterMap id).sum /
        (((windowSlice xs lb i).filterMap id).length : ℚ) :=
      hall r hrmem
    have hmean : (rollingStats xs lb mr).1.getD i none =
        some (((windowSlice xs lb i).filterMap id).sum /
          (((windowSlice xs lb i).filterMap id).length : ℚ)) := by
      rw [rollingStats_fst_getD xs lb mr i hi]
      simp only [meanAt]
      rw [if_neg (by omega)]
    have hstd2 : stdSqAt (windowSlice xs lb i) (min lb mr) = some 0 := by
      simp only [stdSqAt]
      rw [if_neg (by omega)]
      rw [hstd]
    rw [zColOf_getD xs lb mr i hi, hr, hmean,
      rollingStats_snd_getD xs lb mr i hi, hstd2, hrm]
    simp [mkZ]

/-- C7: the per-category z-score is (ratio - rolling_mean) / rolling_std
(symbolically: the val constructor holds the numerator and the variance);
it is NaN whenever the ratio is null, the std is null, or the std is zero;
on a constant series it is NaN at every position (insufficient history gives
a null std, adequate history gives std = 0); and the division never raises
and never produces ±∞ — a zero std forces a zero numerator, so the 0.0
division is 0/0 = NaN, never c/0 = ±∞. -/
theorem c7_zscore (xs : List Cell) (lb mr i : ℕ) :
    ((xs.getD i none = none ∨ (rollingStats xs lb mr).2.getD i none = none ∨
      (rollingStats xs lb mr).2.getD i none = some 0) →
      (zColOf xs lb mr).getD i ZVal.nan = ZVal.nan) ∧
    (∀ r m v : ℚ, xs.getD i none = some r →
      (rollingStats xs lb mr).1.getD i none = some m →
      (rollingStats xs lb mr).2.getD i none = some v → v ≠ 0 →
      (zColOf xs lb mr).getD i ZVal.nan = ZVal.val (r - m) v) ∧
    (∀ b : Bool, (zColOf xs lb mr).getD i ZVal.nan ≠ ZVal.inf b) ∧
    (∀ (c : ℚ) (n : ℕ), xs = List.replicate n (some c) →
      (zColOf xs lb mr).getD i ZVal.nan = ZVal.nan) := by
  by_cases hi : i < xs.length
  case neg =>
    have hdef : (zColOf xs lb mr).getD i ZVal.nan = ZVal.nan :=
      List.getD_eq_default _ _ (by simpa using Nat.le_of_not_lt hi)
    have hrd : xs.getD i none = none :=
      List.getD_eq_default _ _ (Nat.le_of_not_lt hi)
    refine ⟨fun _ => hdef, ?_, ?_, fun _ _ _ => hdef⟩
    · intro r m v hr _ _ _
      rw [hrd] at hr
      exact absurd hr (by simp)
    · intro b
      rw [hdef]
      simp
  case pos =>
    have hstd0 : ∀ hstd : (rollingStats xs lb mr).2.getD i none = some 0,
        (zColOf xs lb mr).getD i ZVal.nan = ZVal.nan :=
      fun hstd => zColOf_stdZero_nan xs lb mr i hi hstd
    refine ⟨?_, ?_, ?_, ?_⟩
    · rintro (hr | hs | hs0)
      · rw [zColOf_getD xs lb mr i hi, hr, mkZ_none_ratio]
      · rw [zColOf_getD xs lb mr i hi, hs, mkZ_none_std]
      · exact hstd0 hs0
    · intro r m v hr hm hv hvne
      rw [zColOf_getD xs lb mr i hi, hr, hm, hv]
      simp [mkZ, hvne]
    · intro b
      cases hs : (rollingStats xs lb mr).2.getD i none with
      | none =>
        rw [zColOf_getD xs lb mr i hi, hs, mkZ_none_std]
        simp
      | some v =>
        by_cases hv0 : v = 0
        · subst hv0
          rw [hstd0 hs]
          simp
        · cases hr : xs.getD i none with
          | none =>
            rw [zColOf_getD xs lb mr i hi, hr, mkZ_none_ratio]
            simp
          | some r =>
            cases hm : (rollingStats xs lb mr).1.getD i none with
            | none =>
              rw [zColOf_getD xs lb mr i hi, hm, mkZ_none_mean]
              simp
            | some m =>
              rw [zColOf_getD xs lb mr i hi, hr, hm, hs]
              simp [mkZ, hv0]
    · intro c n hrepl
      cases hs : (rollingStats xs lb mr).2.getD i none with
      | none =>
        rw [zColOf_getD xs lb mr i hi, hs, mkZ_none_std]
      | some v =>
        have hv0 : v = 0 := by
          rw [rollingStats_snd_getD xs lb mr i hi] at hs
          simp only [stdSqAt] at hs
          split_ifs at hs with hc
          push_neg at hc
          obtain ⟨hmp, h2⟩ := hc
          have hall : ∀ x ∈ (windowSlice xs lb i).filterMap id, x = c := by
            intro x hx
            obtain ⟨a, haw, ha⟩ := List.mem_filterMap.mp hx
            have haxs : a ∈ xs := by
              have hsub : (windowSlice xs lb i).Sublist xs := by
                unfold windowSlice
                exact (List.drop_sublist _ _).trans (List.take_sublist _ _)
              exact hsub.mem haw
            rw [hrepl] at haxs
            have := List.eq_of_mem_replicate haxs
            simp only [id] at ha
            rw [this] at ha
            exact (Option.some.inj ha).symm
          have hlen : (((windowSlice xs lb i).filterMap id).length : ℚ) ≠ 0 := by
            have : (2:ℚ) ≤ (((windowSlice xs lb i).filterMap id).length : ℚ) := by
              exact_mod_cast h2
            linarith
          have hmean : ((windowSlice xs lb i).filterMap id).sum /
              (((windowSlice xs lb i).filterMap id).length : ℚ) = c := by
            rw [sum_const_list _ hall]
            field_simp
          have hzero : ((((windowSlice xs lb i).filterMap id)).map
              (fun v => (v - ((windowSlice xs lb i).filterMap id).sum /
                (((windowSlice xs lb i).filterMap id).length : ℚ))^2)).sum = 0 := by
            apply List.sum_eq_zero
            intro y hy
            obtain ⟨z, hz, rfl⟩ := List.mem_map.mp hy
            rw [hmean, hall z hz]
            ring
          have := Option.some.inj hs
          rw [hzero] at this
          rw [← this]
          simp
        subst hv0
        exact hstd0 hs

/-- Witness for c7_zscore: a constant series yields a NaN z-score with
adequate history, and the series 1, 3 yields the symbolic z-score
(3 - 2)/√2 at its second position. -/
theorem c7_zscore_witness :
    (zColOf [some 5, some 5, some 5] 3 2).getD 2 ZVal.nan = ZVal.nan ∧
    (zColOf [some 1, some 3] 3 2).getD 1 ZVal.nan = ZVal.val 1 2 := by
  constructor
  · exact (c7_zscore [some 5, some 5, some 5] 3 2 2).2.2.2 5 3 rfl
  · have h := (c7_zscore [some 1, some 3] 3 2 1).2.1 3 2 2
      (by with_unfolding_all decide) (by with_unfolding_all decide)
      (by with_unfolding_all decide) (by norm_num)
    rw [h]
    with_unfolding_all decide

/-! ## Claim C9 -/

theorem uniqueKeys_aux_mem :
    ∀ (l acc : List String) (a : String),
      (a ∈ l.foldl (fun acc c => if c ∈ acc then acc else acc ++ [c]) acc ↔
        a ∈ acc ∨ a ∈ l) := by
  intro l
  induction l with
  | nil =>
    intro acc a
    simp
  | cons x t ih =>
    intro acc a
    simp only [List.foldl_cons]
    by_cases hx : x ∈ acc
    · rw [if_pos hx, ih]
      simp only [List.mem_cons]
      constructor
      · tauto
      · rintro (h | h | h)
        · exact Or.inl h
        · rw [h]; exact Or.inl hx
        · exact Or.inr h
    · rw [if_neg hx, ih]
      simp only [List.mem_append, List.mem_cons, List.mem_singleton]
      tauto

theorem mem_uniqueKeys (l : List String) (a : String) :
    a ∈ uniqueKeys l ↔ a ∈ l := by
  rw [uniqueKeys, uniqueKeys_aux_mem]
  simp

theorem uniqueKeys_aux_nodup :
    ∀ (l acc : List String), acc.Nodup →
      (l.foldl (fun acc c => if c ∈ acc then acc else acc ++ [c]) acc).Nodup := by
  intro l
  induction l with
  | nil =>
    intro acc h
    simpa using h
  | cons x t ih =>
    intro acc h
    simp only [List.foldl_cons]
    by_cases hx : x ∈ acc
    · rw [if_pos hx]
      exact ih acc h
    · rw [if_neg hx]
      apply ih
      rw [List.nodup_append]
      refine ⟨h, List.nodup_singleton x, ?_⟩
      intro b hb hbx
      rw [List.mem_singleton] at hbx
      rw [hbx] at hb
      exact hx hb

theorem uniqueKeys_nodup (l : List String) : (uniqueKeys l).Nodup :=
  uniqueKeys_aux_nodup l [] List.nodup_nil

theorem rowLe_total (a b : Row) : rowLe a b = true ∨ rowLe b a = true := by
  unfold rowLe
  by_cases h : a.contract = b.contract
  · rw [if_pos h, if_pos h.symm]
    simp only [decide_eq_true_eq]
    omega
  · rw [if_neg h, if_neg (fun hh => h hh.symm)]
    simp only [decide_eq_true_eq]
    exact lt_or_gt_of_ne h

theorem rowLe_trans (a b c : Row) (h1 : rowLe a b = true)
    (h2 : rowLe b c = true) : rowLe a c = true := by
  unfold rowLe at *
  by_cases hab : a.contract = b.contract
  · rw [if_pos hab] at h1
    by_cases hbc : b.contract = c.contract
    · rw [if_pos hbc] at h2
      rw [if_pos (hab.trans hbc)]
      simp only [decide_eq_true_eq] at *
      omega
    · rw [if_neg hbc] at h2
      rw [if_neg (fun hh => hbc (hab.symm.trans hh))]
      rw [hab]
      exact h2
  · rw [if_neg hab] at h1
    by_cases hbc : b.contract = c.contract
    · rw [if_neg (fun hh => hab (hh.trans hbc.symm))]
      rw [← hbc]
      exact h1
    · rw [if_neg hbc] at h2
      simp only [decide_eq_true_eq] at h1 h2
      have hac : a.contract < c.contract := lt_trans h1 h2
      rw [if_neg (fun hh => absurd (hh ▸ hac) (lt_irrefl _))]
      simp only [decide_eq_true_eq]
      exact hac

instance : IsTotal Row (fun a b => rowLe a b = true) := ⟨rowLe_total⟩

instance : IsTrans Row (fun a b => rowLe a b = true) := ⟨rowLe_trans⟩

theorem sortRows_pairwise (rows : List Row) :
    (sortRows rows).Pairwise (fun a b => rowLe a b = true) :=
  List.sorted_insertionSort (fun a b => rowLe a b = true) rows

theorem sortRows_perm (rows : List Row) : (sortRows rows).Perm rows :=
  List.perm_insertionSort (fun a b => rowLe a b = true) rows

/-- Within a contract group (filter of the sorted table), rows are ordered by
report_date. -/
theorem group_sorted_by_date (rows : List Row) (c : String) :
    ((sortRows rows).filter (fun r => r.contract == c)).Pairwise
      (fun a b => a.report_date ≤ b.report_date) := by
  have h1 := sortRows_pairwise rows
  have h2 : ((sortRows rows).filter (fun r => r.contract == c)).Pairwise
      (fun a b => rowLe a b = true) :=
    h1.sublist (List.filter_sublist _)
  apply List.Pairwise.imp_of_mem ?_ h2
  intro a b ha hb hle
  have hac : a.contract = c := by
    have := (List.mem_filter.mp ha).2
    simpa using this
  have hbc : b.contract = c := by
    have := (List.mem_filter.mp hb).2
    simpa using this
  unfold rowLe at hle
  rw [if_pos (hac.trans hbc.symm)] at hle
  simpa using hle

/-- Under pairwise-distinct (contract, report_date) keys, the ordering within
each contract group is strict. -/
theorem group_sorted_strict (rows : List Row) (c : String)
    (hnd : (rows.map (fun r => (r.contract, r.report_date))).Nodup) :
    ((sortRows rows).filter (fun r => r.contract == c)).Pairwise
      (fun a b => a.report_date < b.report_date) := by
  have hperm : ((sortRows rows).map (fun r => (r.contract, r.report_date))).Perm
      (rows.map (fun r => (r.contract, r.report_date))) :=
    (sortRows_perm rows).map _
  have hnd2 : ((sortRows rows).map
      (fun r => (r.contract, r.report_date))).Nodup :=
    hperm.nodup_iff.mpr hnd
  have hnd3 : (((sortRows rows).filter (fun r => r.contract == c)).map
      (fun r => (r.contract, r.report_date))).Nodup :=
    ((List.filter_sublist _).map _).nodup hnd2
  have hpair : ((sortRows rows).filter (fun r => r.contract == c)).Pairwise
      (fun a b => (a.contract, a.report_date) ≠ (b.contract, b.report_date)) :=
    List.pairwise_map.mp hnd3
  have hle := group_sorted_by_date rows c
  have hcomb := hle.and hpair
  apply List.Pairwise.imp_of_mem ?_ hcomb
  intro a b ha hb hab
  have hac : a.contract = c := by
    have := (List.mem_filter.mp ha).2
    simpa using this
  have hbc : b.contract = c := by
    have := (List.mem_filter.mp hb).2
    simpa using this
  obtain ⟨hdle, hne⟩ := hab
  rcases lt_or_eq_of_le hdle with h | h
  · exact h
  · exfalso
    apply hne
    rw [hac, hbc, h]

theorem processGroup_contract_eq (thr : ℚ) (lb mr : ℕ) (g : List Row)
    (c : String) (hg : ∀ a ∈ g, a.contract = c) :
    ∀ r ∈ processGroup thr lb mr g, r.contract = c := by
  intro r hr
  obtain ⟨i, hi, rfl⟩ := mem_processGroup.mp hr
  rw [buildRow_contract]
  exact hg _ (getD_mem g i default hi)

theorem filter_flatMap_keys (keys : List String) (F : String → List OutRow)
    (c0 : String) (hnd : keys.Nodup)
    (hF : ∀ c ∈ keys, ∀ r ∈ F c, r.contract = c) :
    (keys.flatMap F).filter (fun r => r.contract == c0) =
      if c0 ∈ keys then F c0 else [] := by
  induction keys with
  | nil =>
    simp
  | cons k ks ih =>
    rw [List.flatMap_cons, List.filter_append]
    obtain ⟨hknot, hksnd⟩ := List.nodup_cons.mp hnd
    have hFk := hF k (List.mem_cons_self k ks)
    have hFks : ∀ c ∈ ks, ∀ r ∈ F c, r.contract = c :=
      fun c hc => hF c (List.mem_cons_of_mem k hc)
    by_cases hk : c0 = k
    · subst hk
      have h1 : (F c0).filter (fun r => r.contract == c0) = F c0 := by
        rw [List.filter_eq_self]
        intro r hr
        simpa using hFk r hr
      have h2 := ih hksnd hFks
      rw [h1, h2, if_neg hknot, if_pos (List.mem_cons_self c0 ks)]
      simp
    · have h1 : (F k).filter (fun r => r.contract == c0) = [] := by
        rw [List.filter_eq_nil_iff]
        intro r hr
        rw [hFk r hr]
        simpa using fun hh => hk hh.symm
      have h2 := ih hksnd hFks
      rw [h1, h2]
      simp only [List.nil_append]
      by_cases hks : c0 ∈ ks
      · rw [if_pos hks, if_pos (List.mem_cons_of_mem k hks)]
      · rw [if_neg hks, if_neg (by
          intro hmem
          rcases List.mem_cons.mp hmem with h | h
          · exact hk h
          · exact hks h)]

theorem take_eq_take_of_le {α : Type} (xs ys : List α) (i j : ℕ) (hj : j ≤ i)
    (ht : xs.take (i+1) = ys.take (i+1)) : xs.take (j+1) = ys.take (j+1) := by
  have h1 : xs.take (j+1) = (xs.take (i+1)).take (j+1) := by
    rw [List.take_take]
    congr 1
    omega
  have h2 : ys.take (j+1) = (ys.take (i+1)).take (j+1) := by
    rw [List.take_take]
    congr 1
    omega
  rw [h1, h2, ht]

theorem getElem?_eq_of_take_eq {α : Type} (xs ys : List α) (i j : ℕ)
    (hj : j ≤ i) (ht : xs.take (i+1) = ys.take (i+1)) : xs[j]? = ys[j]? := by
  have h1 : (xs.take (i+1))[j]? = xs[j]? := by
    rw [List.getElem?_take, if_pos (by omega)]
  have h2 : (ys.take (i+1))[j]? = ys[j]? := by
    rw [List.getElem?_take, if_pos (by omega)]
  rw [← h1, ← h2, ht]

theorem getD_eq_of_take_eq {α : Type} (xs ys : List α) (i j : ℕ) (d : α)
    (hj : j ≤ i) (ht : xs.take (i+1) = ys.take (i+1)) :
    xs.getD j d = ys.getD j d := by
  rw [List.getD_eq_getElem?_getD, List.getD_eq_getElem?_getD,
    getElem?_eq_of_take_eq xs ys i j hj ht]

theorem windowSlice_eq_of_take_eq (xs ys : List Cell) (lb i j : ℕ)
    (hj : j ≤ i) (ht : xs.take (i+1) = ys.take (i+1)) :
    windowSlice xs lb j = windowSlice ys lb j := by
  unfold windowSlice
  rw [take_eq_take_of_le xs ys i j hj ht]

/-- Causality of the rolling statistics: position j of any of the derived
columns depends only on the series up to position j (hence up to i ≥ j). -/
theorem statCols_eq_of_take_eq (xs ys : List Cell) (lb mr i j : ℕ)
    (hj : j ≤ i) (hjx : j < xs.length) (hjy : j < ys.length)
    (ht : xs.take (i+1) = ys.take (i+1)) :
    (rollingStats xs lb mr).1.getD j none =
      (rollingStats ys lb mr).1.getD j none ∧
    (rollingStats xs lb mr).2.getD j none =
      (rollingStats ys lb mr).2.getD j none ∧
    (rollingPct xs lb).getD j none = (rollingPct ys lb).getD j none ∧
    (zColOf xs lb mr).getD j ZVal.nan = (zColOf ys lb mr).getD j ZVal.nan := by
  have hw := windowSlice_eq_of_take_eq xs ys lb i j hj ht
  have hg := getD_eq_of_take_eq xs ys i j none hj ht
  have h1 : (rollingStats xs lb mr).1.getD j none =
      (rollingStats ys lb mr).1.getD j none := by
    rw [rollingStats_fst_getD xs lb mr j hjx,
      rollingStats_fst_getD ys lb mr j hjy, hw]
  have h2 : (rollingStats xs lb mr).2.getD j none =
      (rollingStats ys lb mr).2.getD j none := by
    rw [rollingStats_snd_getD xs lb mr j hjx,
      rollingStats_snd_getD ys lb mr j hjy, hw]
  refine ⟨h1, h2, ?_, ?_⟩
  · rw [rollingPct_getD xs lb j hjx, rollingPct_getD ys lb j hjy, hw, hg]
  · rw [zColOf_getD xs lb mr j hjx, zColOf_getD ys lb mr j hjy, hg, h1, h2]

theorem ratioCol_take_eq (f : Row → Cell) (g h : List Row) (i : ℕ)
    (ht : g.take (i+1) = h.take (i+1)) :
    (g.map f).take (i+1) = (h.map f).take (i+1) := by
  rw [← List.map_take, ← List.map_take, ht]

theorem extAMCol_eq_of_take_eq (thr : ℚ) (lb mr : ℕ) (g h : List Row)
    (i j : ℕ) (hj : j ≤ i) (hjg : j < g.length) (hjh : j < h.length)
    (ht : g.take (i+1) = h.take (i+1)) :
    (extAMCol thr lb mr g).getD j false =
      (extAMCol thr lb mr h).getD j false := by
  rw [extAMCol_getD thr lb mr g j hjg, extAMCol_getD thr lb mr h j hjh]
  have hta : (amRatioCol g).take (i+1) = (amRatioCol h).take (i+1) :=
    ratioCol_take_eq _ g h i ht
  obtain ⟨_, _, h3, h4⟩ := statCols_eq_of_take_eq (amRatioCol g)
    (amRatioCol h) lb mr i j hj (by simpa using hjg) (by simpa using hjh) hta
  rw [h3, h4]

theorem extLFCol_eq_of_take_eq (thr : ℚ) (lb mr : ℕ) (g h : List Row)
    (i j : ℕ) (hj : j ≤ i) (hjg : j < g.length) (hjh : j < h.length)
    (ht : g.take (i+1) = h.take (i+1)) :
    (extLFCol thr lb mr g).getD j false =
      (extLFCol thr lb mr h).getD j false := by
  rw [extLFCol_getD thr lb mr g j hjg, extLFCol_getD thr lb mr h j hjh]
  have hta : (lfRatioCol g).take (i+1) = (lfRatioCol h).take (i+1) :=
    ratioCol_take_eq _ g h i ht
  obtain ⟨_, _, h3, h4⟩ := statCols_eq_of_take_eq (lfRatioCol g)
    (lfRatioCol h) lb mr i j hj (by simpa using hjg) (by simpa using hjh) hta
  rw [h3, h4]

/-- Causality of the whole per-contract computation: output row i is fully
determined by input rows 0..i of the partition. -/
theorem processGroup_causal (thr : ℚ) (lb mr : ℕ) (g h : List Row) (i : ℕ)
    (ht : g.take (i+1) = h.take (i+1)) :
    (processGroup thr lb mr g)[i]? = (processGroup thr lb mr h)[i]? := by
  have hlen : min (i+1) g.length = min (i+1) h.length := by
    have hl := congrArg List.length ht
    simpa [List.length_take] using hl
  by_cases hig : i < g.length
  case neg =>
    have hih : ¬ i < h.length := by omega
    rw [List.getElem?_eq_none (by simpa using Nat.le_of_not_lt hig),
      List.getElem?_eq_none (by simpa using Nat.le_of_not_lt hih)]
  case pos =>
    have hih : i < h.length := by omega
    have hrow : g.getD i default = h.getD i default :=
      getD_eq_of_take_eq g h i i default (le_refl i) ht
    have hratio : ∀ f : Row → Cell,
        (g.map f).getD i none = (h.map f).getD i none := by
      intro f
      exact getD_eq_of_take_eq _ _ i i none (le_refl i) (ratioCol_take_eq f g h i ht)
    have hstat : ∀ (f : Row → Cell) (mr2 : ℕ),
        (rollingPct (g.map f) lb).getD i none =
          (rollingPct (h.map f) lb).getD i none ∧
        (zColOf (g.map f) lb mr2).getD i ZVal.nan =
          (zColOf (h.map f) lb mr2).getD i ZVal.nan := by
      intro f mr2
      obtain ⟨_, _, h3, h4⟩ := statCols_eq_of_take_eq (g.map f) (h.map f)
        lb mr2 i i (le_refl i) (by simpa using hig) (by simpa using hih)
        (ratioCol_take_eq f g h i ht)
      exact ⟨h3, h4⟩
    have hextam : (extAMCol thr lb mr g).getD i false =
        (extAMCol thr lb mr h).getD i false :=
      extAMCol_eq_of_take_eq thr lb mr g h i i (le_refl i) hig hih ht
    have hextlf : (extLFCol thr lb mr g).getD i false =
        (extLFCol thr lb mr h).getD i false :=
      extLFCol_eq_of_take_eq thr lb mr g h i i (le_refl i) hig hih ht
    have hconfam : (confirm2 (extAMCol thr lb mr g)).getD i false =
        (confirm2 (extAMCol thr lb mr h)).getD i false := by
      rw [confirm2_getD _ i (by simpa using hig),
        confirm2_getD _ i (by simpa using hih), hextam]
      by_cases hi0 : i = 0
      · rw [if_pos hi0, if_pos hi0]
      · rw [if_neg hi0, if_neg hi0,
          extAMCol_eq_of_take_eq thr lb mr g h i (i-1) (by omega)
            (by omega) (by omega) ht]
    have hconflf : (confirm2 (extLFCol thr lb mr g)).getD i false =
        (confirm2 (extLFCol thr lb mr h)).getD i false := by
      rw [confirm2_getD _ i (by simpa using hig),
        confirm2_getD _ i (by simpa using hih), hextlf]
      by_cases hi0 : i = 0
      · rw [if_pos hi0, if_pos hi0]
      · rw [if_neg hi0, if_neg hi0,
          extLFCol_eq_of_take_eq thr lb mr g h i (i-1) (by omega)
            (by omega) (by omega) ht]
    rw [processGroup, processGroup, rangeMap_getElem, rangeMap_getElem,
      if_pos hig, if_pos hih]
    congr 1
    unfold buildRow
    simp only [amRatioCol, lfRatioCol, diRatioCol, orRatioCol, nrRatioCol] at *
    rw [hrow]
    congr 1 <;>
      first
        | exact hratio _
        | exact (hstat _ mr).1
        | exact (hstat _ _).2
        | exact hextam
        | exact hextlf
        | exact hconfam
        | exact hconflf
        | rw [hextam, hextlf]

/-- C9: (1) the engine's output restricted to one contract is exactly the
per-contract computation on that contract's sorted rows — rolling
computations partition strictly by contract, with no cross-contract
leakage; (2) within each contract the rows fed to the rolling computation
are ordered by report_date, strictly so when the (contract, report_date)
keys are pairwise distinct; (3) the computation is causal: output row i of a
partition depends only on input rows at positions <= i of that partition
(equal prefixes give equal rows, no look-ahead). -/
theorem c9_partition_order_causality (df : Table) (thr : ℚ) (lb mr : ℕ)
    (out : List OutRow)
    (h : compute_positioning_metrics df thr lb mr = some out) :
    (∀ c : String, out.filter (fun r => r.contract == c) =
      processGroup thr lb mr
        ((sortRows df.rows).filter (fun r => r.contract == c))) ∧
    (∀ c : String,
      ((sortRows df.rows).filter (fun r => r.contract == c)).Pairwise
        (fun a b => a.report_date ≤ b.report_date)) ∧
    ((df.rows.map (fun r => (r.contract, r.report_date))).Nodup →
      ∀ c : String,
        ((sortRows df.rows).filter (fun r => r.contract == c)).Pairwise
          (fun a b => a.report_date < b.report_date)) ∧
    (∀ (g g2 : List Row) (i : ℕ), g.take (i+1) = g2.take (i+1) →
      (processGroup thr lb mr g)[i]? = (processGroup thr lb mr g2)[i]?) := by
  refine ⟨?_, fun c => group_sorted_by_date df.rows c,
    fun hnd c => group_sorted_strict df.rows c hnd,
    fun g g2 i ht => processGroup_causal thr lb mr g g2 i ht⟩
  intro c
  unfold compute_positioning_metrics at h
  by_cases he : df.rows.isEmpty = true
  · rw [if_pos he] at h
    injection h with h2
    subst h2
    have hrows : df.rows = [] := by simpa [List.isEmpty_iff] using he
    rw [hrows]
    rfl
  · rw [if_neg he] at h
    by_cases hc : (df.hasDealerCols && df.hasOtherReptCols &&
        df.hasNonreptCols) = true
    · rw [if_pos hc] at h
      injection h with h2
      subst h2
      have hF : ∀ c2 ∈ uniqueKeys ((sortRows df.rows).map
            (fun r => r.contract)),
          ∀ r ∈ processGroup thr lb mr
            ((sortRows df.rows).filter (fun r => r.contract == c2)),
          r.contract = c2 := by
        intro c2 _ r hr
        refine processGroup_contract_eq thr lb mr _ c2 ?_ r hr
        intro a ha
        have := (List.mem_filter.mp ha).2
        simpa using this
      rw [filter_flatMap_keys _ _ c (uniqueKeys_nodup _) hF]
      by_cases hck : c ∈ uniqueKeys ((sortRows df.rows).map
          (fun r => r.contract))
      · rw [if_pos hck]
      · rw [if_neg hck]
        have hfe : (sortRows df.rows).filter (fun r => r.contract == c) = [] := by
          rw [List.filter_eq_nil_iff]
          intro a ha hac
          apply hck
          rw [mem_uniqueKeys]
          apply List.mem_map.mpr
          exact ⟨a, ha, by simpa using hac⟩
        rw [hfe]
        rfl
    · rw [if_neg hc] at h
      exact absurd h (by simp)

/-- Witness for c9_partition_order_causality at a concrete run. -/
theorem c9_partition_order_causality_witness :
    ((compute_positioning_metrics tableC8 2 3 2).getD []).filter
        (fun r => r.contract == "NQ") =
      processGroup 2 3 2
        ((sortRows tableC8.rows).filter (fun r => r.contract == "NQ")) := by
  have h : compute_positioning_metrics tableC8 2 3 2 =
      some ((compute_positioning_metrics tableC8 2 3 2).getD []) := by
    with_unfolding_all decide
  exact (c9_partition_order_causality tableC8 2 3 2 _ h).1 "NQ"
